import Mathlib

/-!
Verification of the url-oracle attestation core against its specification.

The Go sources are shallowly embedded: pure functions become Lean functions,
byte slices become lists of `Fin 256`, Go `string` becomes Lean `String`
(sequences of Unicode scalar values), `int64` becomes `Int`, and fallible
functions return `Except`/`Option`.  External effects (file system, network,
OIDC library calls, child processes) are passed in as explicit parameters
describing their outcome, exactly at the seam where the Go code consumes them.
-/

namespace UrlOracle

/-- A byte, as stored in a Go `[]byte`. -/
abbrev Byte := Fin 256

/-- Build a byte from a natural number, truncating mod 256. -/
def mkByte (n : Nat) : Byte := ⟨n % 256, Nat.mod_lt _ (by decide)⟩

/-- Embedding of Go `strings.Split(s, sep)` for a one-character separator:
splits around every occurrence of the separator, keeping empty segments, and
returns `[""]` on the empty string. -/
def splitOnChar (sep : Char) : List Char → List (List Char)
  | [] => [[]]
  | c :: rest =>
    let r := splitOnChar sep rest
    if c = sep then [] :: r
    else
      match r with
      | [] => [[c]]
      | s :: ss => (c :: s) :: ss

/-- Decimal digits, fuel-driven so that the definition is structurally
recursive and reduces inside the kernel.  The fuel only needs to dominate the
number of digits; `natDecChars` supplies `n + 1`, which always suffices. -/
def natDecCharsAux : Nat → Nat → List Char
  | 0, _ => []
  | fuel + 1, n =>
    if n < 10 then [Nat.digitChar n]
    else natDecCharsAux fuel (n / 10) ++ [Nat.digitChar (n % 10)]

/-- Decimal digits of a natural number, most significant first. -/
def natDecChars (n : Nat) : List Char := natDecCharsAux (n + 1) n

/-- Zero-padded two-digit decimal rendering. -/
def pad2 (n : Nat) : List Char :=
  if n < 10 then '0' :: natDecChars n else natDecChars n

/-- Zero-padded four-digit decimal rendering. -/
def pad4 (n : Nat) : List Char :=
  if n < 10 then '0' :: '0' :: '0' :: natDecChars n
  else if n < 100 then '0' :: '0' :: natDecChars n
  else if n < 1000 then '0' :: natDecChars n
  else natDecChars n

/-- Embedding of Go `time.Unix(iat, 0).UTC().Format(time.RFC3339)`: the
RFC 3339 / ISO-8601 UTC rendering `YYYY-MM-DDTHH:MM:SSZ` of a Unix timestamp.
The date part uses the standard civil-from-days calendar algorithm. -/
def formatTimestampUTC (iat : Int) : String :=
  let days : Int := Int.fdiv iat 86400
  let sod : Nat := (iat - days * 86400).toNat
  let z : Int := days + 719468
  let era : Int := Int.fdiv z 146097
  let doe : Nat := (z - era * 146097).toNat
  let yoe : Nat := (doe - doe / 1460 + doe / 36524 - doe / 146096) / 365
  let y0 : Int := (yoe : Int) + era * 400
  let doy : Nat := doe - (365 * yoe + yoe / 4 - yoe / 100)
  let mp : Nat := (5 * doy + 2) / 153
  let d : Nat := doy - (153 * mp + 2) / 5 + 1
  let m : Nat := if mp < 10 then mp + 3 else mp - 9
  let y : Int := y0 + (if m ≤ 2 then 1 else 0)
  let yearChars : List Char := if y < 0 then '-' :: pad4 (-y).toNat else pad4 y.toNat
  let hh : Nat := sod / 3600
  let mi : Nat := sod % 3600 / 60
  let ss : Nat := sod % 60
  ⟨yearChars ++ '-' :: pad2 m ++ '-' :: pad2 d ++
    'T' :: pad2 hh ++ ':' :: pad2 mi ++ ':' :: pad2 ss ++ ['Z']⟩

/-! ## SHA-256 (Go `crypto/sha256`)

An executable embedding of SHA-256 over byte lists, with 32-bit words carried
as `Nat` reduced explicitly mod `2 ^ 32`. -/

/-- Right rotation of a 32-bit word. -/
def rotr (n x : Nat) : Nat := x / 2 ^ n + x % 2 ^ n * 2 ^ (32 - n)

/-- SHA-256 big sigma 0. -/
def bsig0 (x : Nat) : Nat := rotr 2 x ^^^ rotr 13 x ^^^ rotr 22 x

/-- SHA-256 big sigma 1. -/
def bsig1 (x : Nat) : Nat := rotr 6 x ^^^ rotr 11 x ^^^ rotr 25 x

/-- SHA-256 small sigma 0. -/
def ssig0 (x : Nat) : Nat := rotr 7 x ^^^ rotr 18 x ^^^ x / 2 ^ 3

/-- SHA-256 small sigma 1. -/
def ssig1 (x : Nat) : Nat := rotr 17 x ^^^ rotr 19 x ^^^ x / 2 ^ 10

/-- SHA-256 choice function (with 32-bit complement). -/
def chFn (x y z : Nat) : Nat := (x &&& y) ^^^ ((2 ^ 32 - 1 - x) &&& z)

/-- SHA-256 majority function. -/
def majFn (x y z : Nat) : Nat := (x &&& y) ^^^ (x &&& z) ^^^ (y &&& z)

/-- The SHA-256 round constants. -/
def sha256K : List Nat :=
  [1116352408, 1899447441, 3049323471, 3921009573, 961987163,
   1508970993, 2453635748, 2870763221, 3624381080, 310598401,
   607225278, 1426881987, 1925078388, 2162078206, 2614888103,
   3248222580, 3835390401, 4022224774, 264347078, 604807628,
   770255983, 1249150122, 1555081692, 1996064986, 2554220882,
   2821834349, 2952996808, 3210313671, 3336571891, 3584528711,
   113926993, 338241895, 666307205, 773529912, 1294757372,
   1396182291, 1695183700, 1986661051, 2177026350, 2456956037,
   2730485921, 2820302411, 3259730800, 3345764771, 3516065817,
   3600352804, 4094571909, 275423344, 430227734, 506948616,
   659060556, 883997877, 958139571, 1322822218, 1537002063,
   1747873779, 1955562222, 2024104815, 2227730452, 2361852424,
   2428436474, 2756734187, 3204031479, 3329325298]

/-- The eight 32-bit working variables of the compression function. -/
structure Sha256State where
  a : Nat
  b : Nat
  c : Nat
  d : Nat
  e : Nat
  f : Nat
  g : Nat
  h : Nat

/-- The SHA-256 initial hash value. -/
def sha256Init : Sha256State :=
  ⟨1779033703, 3144134277, 1013904242, 2773480762,
   1359893119, 2600822924, 528734635, 1541459225⟩

/-- One round of the SHA-256 compression function. -/
def sha256Round (s : Sha256State) (kw : Nat × Nat) : Sha256State :=
  let t1 := (s.h + bsig1 s.e + chFn s.e s.f s.g + kw.1 + kw.2) % 2 ^ 32
  let t2 := (bsig0 s.a + majFn s.a s.b s.c) % 2 ^ 32
  { a := (t1 + t2) % 2 ^ 32, b := s.a, c := s.b, d := s.c,
    e := (s.d + t1) % 2 ^ 32, f := s.e, g := s.f, h := s.g }

/-- Message-schedule extension: prepends `n` further words to the reversed
schedule accumulator. -/
def scheduleGo : Nat → List Nat → List Nat
  | 0, acc => acc
  | n + 1, acc =>
    scheduleGo n
      (((ssig1 (acc.getD 1 0) + acc.getD 6 0 + ssig0 (acc.getD 14 0) +
        acc.getD 15 0) % 2 ^ 32) :: acc)

/-- The 64-entry message schedule of a 16-word block. -/
def schedule (ws : List Nat) : List Nat := (scheduleGo 48 ws.reverse).reverse

/-- Compress one 16-word block into the running state. -/
def compressBlock (s : Sha256State) (ws : List Nat) : Sha256State :=
  let t := (sha256K.zip (schedule ws)).foldl sha256Round s
  { a := (s.a + t.a) % 2 ^ 32, b := (s.b + t.b) % 2 ^ 32,
    c := (s.c + t.c) % 2 ^ 32, d := (s.d + t.d) % 2 ^ 32,
    e := (s.e + t.e) % 2 ^ 32, f := (s.f + t.f) % 2 ^ 32,
    g := (s.g + t.g) % 2 ^ 32, h := (s.h + t.h) % 2 ^ 32 }

/-- Big-endian 8-byte rendering of the bit length. -/
def lengthBytes (n : Nat) : List Nat :=
  [n / 2 ^ 56 % 256, n / 2 ^ 48 % 256, n / 2 ^ 40 % 256, n / 2 ^ 32 % 256,
   n / 2 ^ 24 % 256, n / 2 ^ 16 % 256, n / 2 ^ 8 % 256, n % 256]

/-- SHA-256 padding: append `0x80`, zeros to 56 mod 64, and the bit length. -/
def padBytes (m : List Nat) : List Nat :=
  m ++ 0x80 :: List.replicate ((64 - (m.length + 9) % 64) % 64) 0 ++
    lengthBytes (8 * m.length)

/-- Pack big-endian 4-byte groups into 32-bit words. -/
def bytesToWords : List Nat → List Nat
  | b0 :: b1 :: b2 :: b3 :: rest =>
    (((b0 * 256 + b1) * 256 + b2) * 256 + b3) :: bytesToWords rest
  | _ => []

/-- Split a word list into 16-word blocks (the padded input is always an
exact multiple of 16 words). -/
def chunkWords : List Nat → List (List Nat)
  | w0 :: w1 :: w2 :: w3 :: w4 :: w5 :: w6 :: w7 ::
    w8 :: w9 :: w10 :: w11 :: w12 :: w13 :: w14 :: w15 :: rest =>
    [w0, w1, w2, w3, w4, w5, w6, w7, w8, w9, w10, w11, w12, w13, w14, w15] ::
      chunkWords rest
  | _ => []

/-- Big-endian bytes of a 32-bit word. -/
def wordBytes (w : Nat) : List Nat :=
  [w / 2 ^ 24 % 256, w / 2 ^ 16 % 256, w / 2 ^ 8 % 256, w % 256]

/-- The digest bytes of a final state. -/
def stateBytes (s : Sha256State) : List Nat :=
  wordBytes s.a ++ wordBytes s.b ++ wordBytes s.c ++ wordBytes s.d ++
    wordBytes s.e ++ wordBytes s.f ++ wordBytes s.g ++ wordBytes s.h

/-- SHA-256 of a byte list, as its 32 digest bytes. -/
def sha256 (m : List Nat) : List Nat :=
  stateBytes ((chunkWords (bytesToWords (padBytes m))).foldl compressBlock
    sha256Init)

/-- A SHA-256 collision: two distinct byte strings with the same digest. -/
def Sha256Collision : Prop := ∃ x y : List Nat, x ≠ y ∧ sha256 x = sha256 y

/-- Lowercase hex rendering of a byte list (Go `hex.EncodeToString`). -/
def hexChars (bytes : List Nat) : List Char :=
  bytes.flatMap fun b => [Nat.digitChar (b / 16), Nat.digitChar (b % 16)]

/-- The content-digest string computed by `DownloadContent`:
`"sha256:" ++ hex(SHA-256(content))`. -/
def sha256DigestString (content : List Byte) : String :=
  ⟨("sha256:").data ++ hexChars (sha256 (content.map Fin.val))⟩

/-- Did an `Except` computation fail? -/
def isErr {ε α : Type} : Except ε α → Bool
  | .error _ => true
  | .ok _ => false

/-! ## Go `encoding/json` string escaping

`json.Marshal` writes a string as a quote, an escaped body, and a quote.
With the default HTML escaping it escapes the quote and the backslash,
renders newline, carriage return and tab symbolically, other control
characters and the HTML-sensitive characters (less-than, greater-than,
ampersand) as backslash-u sequences, likewise the line and paragraph
separators U+2028 and U+2029; every other scalar value is written as
itself. -/

/-- Escape one character as Go `encoding/json` does. -/
def escChar (c : Char) : List Char :=
  if c = '"' then ['\\', '"']
  else if c = '\\' then ['\\', '\\']
  else if c = '\n' then ['\\', 'n']
  else if c = '\r' then ['\\', 'r']
  else if c = '\t' then ['\\', 't']
  else if c.toNat < 0x20 then
    ['\\', 'u', '0', '0', Nat.digitChar (c.toNat / 16), Nat.digitChar (c.toNat % 16)]
  else if c = '<' then ['\\', 'u', '0', '0', '3', 'c']
  else if c = '>' then ['\\', 'u', '0', '0', '3', 'e']
  else if c = '&' then ['\\', 'u', '0', '0', '2', '6']
  else if c.toNat = 0x2028 then ['\\', 'u', '2', '0', '2', '8']
  else if c.toNat = 0x2029 then ['\\', 'u', '2', '0', '2', '9']
  else [c]

/-- The escaped body of a JSON string literal. -/
def escBody (s : List Char) : List Char := s.flatMap escChar

/-- A JSON string literal: quote, escaped body, quote. -/
def encStr (s : String) : List Char := '"' :: escBody s.data ++ ['"']

/-- Inverse of the short escapes. -/
def unescChar (e : Char) : Char :=
  if e = 'n' then '\n' else if e = 'r' then '\r' else if e = 't' then '\t' else e

/-- Value of a lowercase hex digit. -/
def hexVal (c : Char) : Nat :=
  if 97 ≤ c.toNat then c.toNat - 87 else c.toNat - 48

/-- Decode the body of a JSON string literal up to its closing quote,
returning the decoded characters and the remainder of the input.  Only used
to prove that the escaping is invertible, hence injective.  The recursion is
driven by a fuel parameter; one unit of fuel per decoded character
suffices. -/
def decodeStrBodyF : Nat → List Char → Option (List Char × List Char)
  | 0, _ => none
  | fuel + 1, l =>
    match l with
    | [] => none
    | c :: rest =>
      if c = '"' then some ([], rest)
      else if c = '\\' then
        match rest with
        | [] => none
        | e :: rest2 =>
          if e = 'u' then
            match rest2 with
            | h1 :: h2 :: h3 :: h4 :: rest3 =>
              (decodeStrBodyF fuel rest3).map fun p =>
                (Char.ofNat
                  (((hexVal h1 * 16 + hexVal h2) * 16 + hexVal h3) * 16 +
                    hexVal h4) :: p.1, p.2)
            | _ => none
          else (decodeStrBodyF fuel rest2).map fun p => (unescChar e :: p.1, p.2)
      else (decodeStrBodyF fuel rest).map fun p => (c :: p.1, p.2)

/-- Decode a JSON string literal off the front of the input. -/
def decodeString (l : List Char) : Option (List Char × List Char) :=
  match l with
  | c :: rest => if c = '"' then decodeStrBodyF l.length rest else none
  | [] => none

/-! ## Base64 (Go `encoding/base64` standard encoding)

`json.Marshal` renders a `[]byte` field as the standard padded base64 of its
bytes, inside a JSON string literal. -/

/-- The standard base64 alphabet. -/
def b64Alphabet : List Char :=
  ("ABCDEFGHIJKLMNOPQRSTUVWXYZabcdefghijklmnopqrstuvwxyz0123456789+/").data

/-- The base64 character of a 6-bit value. -/
def b64Char (n : Nat) : Char := b64Alphabet.getD n 'A'

/-- Standard padded base64 of a byte list. -/
def b64Chars : List Nat → List Char
  | [] => []
  | [b0] => [b64Char (b0 / 4), b64Char (b0 % 4 * 16), '=', '=']
  | [b0, b1] =>
    [b64Char (b0 / 4), b64Char (b0 % 4 * 16 + b1 / 16), b64Char (b1 % 16 * 4), '=']
  | b0 :: b1 :: b2 :: rest =>
    b64Char (b0 / 4) :: b64Char (b0 % 4 * 16 + b1 / 16) ::
      b64Char (b1 % 16 * 4 + b2 / 64) :: b64Char (b2 % 64) :: b64Chars rest

/-- Index of a character in the base64 alphabet. -/
def b64Val (c : Char) : Nat := b64Alphabet.indexOf c

/-- Decode standard padded base64; inverse of `b64Chars` on byte input. -/
def b64Decode : List Char → Option (List Nat)
  | [] => some []
  | c0 :: c1 :: c2 :: c3 :: rest =>
    if c2 = '=' then some [b64Val c0 * 4 + b64Val c1 / 16]
    else if c3 = '=' then
      some [b64Val c0 * 4 + b64Val c1 / 16, b64Val c1 % 16 * 16 + b64Val c2 / 4]
    else
      (b64Decode rest).map fun l =>
        (b64Val c0 * 4 + b64Val c1 / 16) ::
          (b64Val c1 % 16 * 16 + b64Val c2 / 4) ::
          (b64Val c2 % 4 * 64 + b64Val c3) :: l
  | _ => none

/-! ## UTF-8

`json.Marshal` returns the UTF-8 bytes of the JSON text; those bytes are what
`sha256.Sum256` consumes. -/

/-- UTF-8 bytes of one Unicode scalar value. -/
def utf8Char (c : Char) : List Nat :=
  let v := c.toNat
  if v < 0x80 then [v]
  else if v < 0x800 then [0xc0 + v / 64, 0x80 + v % 64]
  else if v < 0x10000 then [0xe0 + v / 4096, 0x80 + v / 64 % 64, 0x80 + v % 64]
  else [0xf0 + v / 262144, 0x80 + v / 4096 % 64, 0x80 + v / 64 % 64, 0x80 + v % 64]

/-- UTF-8 bytes of a character sequence. -/
def utf8Bytes (s : List Char) : List Nat := s.flatMap utf8Char

/-- Decode UTF-8; inverse of `utf8Bytes`.  Fuel-driven like
`decodeStrBodyF`; one unit of fuel per decoded character suffices. -/
def utf8DecodeF : Nat → List Nat → Option (List Char)
  | 0, _ => none
  | fuel + 1, l =>
    match l with
    | [] => some []
    | b :: rest =>
      if b < 0x80 then (utf8DecodeF fuel rest).map (Char.ofNat b :: ·)
      else if b < 0xe0 then
        match rest with
        | b1 :: rest1 =>
          (utf8DecodeF fuel rest1).map
            (Char.ofNat ((b - 0xc0) * 64 + (b1 - 0x80)) :: ·)
        | [] => none
      else if b < 0xf0 then
        match rest with
        | b1 :: b2 :: rest2 =>
          (utf8DecodeF fuel rest2).map
            (Char.ofNat ((b - 0xe0) * 4096 + (b1 - 0x80) * 64 + (b2 - 0x80)) :: ·)
        | _ => none
      else
        match rest with
        | b1 :: b2 :: b3 :: rest3 =>
          (utf8DecodeF fuel rest3).map
            (Char.ofNat ((b - 0xf0) * 262144 + (b1 - 0x80) * 4096 +
              (b2 - 0x80) * 64 + (b3 - 0x80)) :: ·)
        | _ => none

/-! ## JSON numbers -/

/-- JSON rendering of a Go `int64`. -/
def encInt (i : Int) : List Char :=
  if i < 0 then '-' :: natDecChars (-i).toNat else natDecChars i.toNat

/-- Numeric value of a decimal digit string (inverse of `natDecChars`). -/
def ofDec (l : List Char) : Nat := l.foldl (fun a c => a * 10 + (c.toNat - 48)) 0

/-! ## Data model (src/attestation/attestation.go, current revision)

`AttestationDetails` and `AttestationPayload` mirror the Go structs field for
field; the `pk_token` member of `Attestation` is an opaque external library
value and is not represented (all the code under verification reads it only
through explicitly modelled seams). -/

/-- Go struct `AttestationDetails`: the lightweight chain pointer. -/
structure AttestationDetails where
  digest : String
  artifactUrl : String
deriving DecidableEq

/-- Go struct `AttestationPayload` (current revision of attestation.go). -/
structure AttestationPayload where
  commitSHA : String
  timestamp : String
  url : String
  content : List Byte
  contentDigest : String
  contentSize : Int
  previousAttestation : Option AttestationDetails
deriving DecidableEq

/-- Go struct `Attestation`, minus the opaque `pk_token` library value. -/
structure Attestation where
  payload : AttestationPayload
  signature : List Nat
deriving DecidableEq

/-- Embedding of `CreateAttestationPayload` (attestation.go): builds the
payload record from the arguments verbatim.  The Go function can never return
a non-nil error, so the embedding returns the payload directly. -/
def CreateAttestationPayload (timestamp : String) (commitSHA : String)
    (previousAttestation : Option AttestationDetails) (url : String)
    (content : List Byte) (contentDigest : String) (contentSize : Int) :
    AttestationPayload :=
  { commitSHA := commitSHA
    timestamp := timestamp
    url := url
    content := content
    contentDigest := contentDigest
    contentSize := contentSize
    previousAttestation := previousAttestation }

/-- Embedding of `CheckContentChanges` (attestation.go, current revision).
The file system and JSON decoding of `LoadAttestation` are modelled by the
`loadResult` parameter: `none` when the file is missing or unparsable,
`some a` when it loads as attestation `a`.  The Go function never returns a
non-nil error, so only the boolean is modelled. -/
def CheckContentChanges (currentDigest : String)
    (previousAttestationFile : String) (loadResult : Option Attestation) :
    Bool :=
  if previousAttestationFile = "" then true
  else
    match loadResult with
    | none => true
    | some prevAttestation =>
      if prevAttestation.payload.contentDigest ≠ currentDigest then false
      else true

/-! ## Identity-token claims (attestation.go) -/

/-- Go struct `IDTokenClaims`.  A missing JSON claim leaves the Go zero value
in its field, which is how `ExtractClaimsFromIDToken` detects absence. -/
structure IDTokenClaims where
  jobWorkflowSHA : String
  iat : Int
  workflowRef : String
  runID : String
  timestamp : String
deriving DecidableEq

/-- Embedding of `ExtractClaimsFromIDToken` (attestation.go).  The JSON
decoding of the PK-token payload is modelled by the `parsed` parameter:
`none` when `json.Unmarshal` fails, otherwise the decoded claims with Go zero
values for absent fields. -/
def ExtractClaimsFromIDToken (parsed : Option IDTokenClaims) :
    Except String IDTokenClaims :=
  match parsed with
  | none => .error "failed to parse PK token payload"
  | some claims =>
    if claims.jobWorkflowSHA = "" then
      .error "job_workflow_sha claim not found in ID token"
    else if claims.iat = 0 then
      .error "iat claim not found in ID token"
    else if claims.workflowRef = "" then
      .error "workflow_ref claim not found in ID token"
    else
      .ok { claims with timestamp := formatTimestampUTC claims.iat }

/-! ## Chain linker (cmd/generate_attestation, current revision) -/

/-- Result of parsing a workflow reference
`owner/repo/.github/workflows/file.yml@refs/heads/branch`. -/
structure ParsedRef where
  repoFull : List Char
  workflowFile : List Char
  branch : List Char
deriving DecidableEq

/-- Embedding of the workflow-reference parsing prefix of
`fetchPreviousAttestationDetails`: split on `'@'` and require at least two
parts, require the first part to have exactly five `'/'`-segments and the
second part exactly three; `none` models returning a non-nil error. -/
def parseWorkflowRef (workflowRef : String) : Option ParsedRef :=
  let parts := splitOnChar '@' workflowRef.data
  if parts.length < 2 then none
  else
    let workflowPath := parts.getD 0 []
    let branchRef := parts.getD 1 []
    let pparts := splitOnChar '/' workflowPath
    if pparts.length ≠ 5 then none
    else
      let bparts := splitOnChar '/' branchRef
      if bparts.length ≠ 3 then none
      else
        some { repoFull := pparts.getD 0 [] ++ '/' :: pparts.getD 1 []
               workflowFile := pparts.getD 4 []
               branch := bparts.getD 2 [] }

/-- Embedding of `fetchPreviousAttestationDetails`.  The child process running
`scripts/download_attestation.sh` is modelled by its exit code `scriptExit`
(`0` success, `2` the distinguished artifact-not-found code), and the details
file it leaves behind by `detailsFile` (`none`: no file; `some none`: file
present but `LoadAttestationDetails` fails; `some (some d)`: parsed as `d`).
The Go return pair `(details, err)` becomes `Except`: `(nil, nil)` is
`.ok none`, `(d, nil)` is `.ok (some d)`, and `(nil, err)` is `.error`. -/
def fetchPreviousAttestationDetails (workflowRef : String) (scriptExit : Nat)
    (detailsFile : Option (Option AttestationDetails)) :
    Except String (Option AttestationDetails) :=
  match parseWorkflowRef workflowRef with
  | none => .error "unexpected workflow_ref format"
  | some _ =>
    if scriptExit ≠ 0 then
      if scriptExit = 2 then .ok none
      else .error "failed to fetch previous attestation"
    else
      match detailsFile with
      | none => .error "previous attestation details not found"
      | some none => .error "failed to load previous attestation details"
      | some (some details) => .ok (some details)

/-- Embedding of the chain-link and payload-construction steps of
`createAttestation` (cmd/generate_attestation, current revision): unless
`skipPrevious`, fetch the previous attestation details and abort the build on
any linker error; then build the payload from the token claims, the fetched
link and the downloaded content. -/
def createAttestationPayloadStep (claims : IDTokenClaims) (url : String)
    (content : List Byte) (contentDigest : String) (contentSize : Int)
    (skipPrevious : Bool) (scriptExit : Nat)
    (detailsFile : Option (Option AttestationDetails)) :
    Except String AttestationPayload :=
  if skipPrevious then
    .ok (CreateAttestationPayload claims.timestamp claims.jobWorkflowSHA none
      url content contentDigest contentSize)
  else
    match fetchPreviousAttestationDetails claims.workflowRef scriptExit
        detailsFile with
    | .error e => .error ("failed to fetch previous attestation: " ++ e)
    | .ok prevAttestationDetails =>
      .ok (CreateAttestationPayload claims.timestamp claims.jobWorkflowSHA
        prevAttestationDetails url content contentDigest contentSize)

/-! ## Payload serialization and hashing (current revision)

`(*AttestationPayload).Hash` is `sha256.Sum256(json.Marshal(ap))`.
`json.Marshal` of the struct emits the fields in declaration order under
their tags; the `[]byte` content is rendered as base64 in a string literal,
the `*AttestationDetails` pointer as `null` or a nested object.  (A nil Go
slice would render as `null`; Lean lists model the non-nil case, which is the
only one the builder produces, since `io.ReadAll` returns a non-nil slice.)
`json.Marshal` can never fail on these types, so `Hash` is total here. -/

/-- Opening brace of a JSON object. -/
def objOpen : Char := '\x7b'

/-- Closing brace of a JSON object. -/
def objClose : Char := '\x7d'

/-- JSON rendering of the optional `previous_attestation` pointer. -/
def encDetails : Option AttestationDetails → List Char
  | none => ("null").data
  | some d =>
    objOpen :: ("\"digest\":").data ++ encStr d.digest ++
      (",\"artifact_url\":").data ++ encStr d.artifactUrl ++ [objClose]

/-- The JSON text `json.Marshal` produces for an `AttestationPayload`. -/
def serializePayload (p : AttestationPayload) : List Char :=
  objOpen :: ("\"commit_sha\":").data ++ encStr p.commitSHA ++
    (",\"timestamp\":").data ++ encStr p.timestamp ++
    (",\"url\":").data ++ encStr p.url ++
    (",\"content\":").data ++ '"' :: b64Chars (p.content.map Fin.val) ++ '"' ::
    (",\"content_digest\":").data ++ encStr p.contentDigest ++
    (",\"content_size\":").data ++ encInt p.contentSize ++
    (",\"previous_attestation\":").data ++ encDetails p.previousAttestation ++
    [objClose]

/-- Embedding of `(*AttestationPayload).Hash`: SHA-256 of the UTF-8 bytes of
the marshalled JSON. -/
def AttestationPayload.Hash (p : AttestationPayload) : List Nat :=
  sha256 (utf8Bytes (serializePayload p))

/-- Embedding of `DownloadContent` (attestation.go, current revision).  The
HTTP exchange is modelled by its observable outcome: the response status and
body (`none` body for a transport error).  On a 200 response the function
returns the body, the digest string `"sha256:" ++ hex(SHA-256(body))`, and
the byte length. -/
def DownloadContent (status : Nat) (body : Option (List Byte)) :
    Option (List Byte × String × Int) :=
  match body with
  | none => none
  | some content =>
    if status ≠ 200 then none
    else some (content, sha256DigestString content, (content.length : Int))

/-! ## Legacy data model and verifier
(src/cmd/verify_attestation/main.go, `VerifyAttestation` revision with the
payload-hash/program-hash/commit-SHA/oracle checks, over the matching
attestation package revision whose payload carries a string `content`, a
string `content_hash` and a `metadata` map) -/

/-- The legacy `AttestationPayload` Go struct: `content` is a (base64)
string, `content_hash` a hex string, and `metadata` a string map.  The map is
modelled as an association list; `json.Marshal` emits its keys in sorted
order, and a nil map as `null`. -/
structure LegacyAttestationPayload where
  commitSHA : String
  timestamp : String
  url : String
  content : String
  contentHash : String
  contentSize : Int
  metadata : List (String × String)
deriving DecidableEq

/-- Strict lexicographic comparison of character lists by scalar value. -/
def charListLtB : List Char → List Char → Bool
  | [], [] => false
  | [], _ :: _ => true
  | _ :: _, [] => false
  | a :: as, b :: bs =>
    if a.toNat < b.toNat then true
    else if b.toNat < a.toNat then false
    else charListLtB as bs

/-- Insert one metadata entry into a key-sorted list. -/
def insertMeta (kv : String × String) :
    List (String × String) → List (String × String)
  | [] => [kv]
  | e :: es =>
    if charListLtB kv.1.data e.1.data then kv :: e :: es
    else e :: insertMeta kv es

/-- Sort metadata entries by key, as `json.Marshal` does for a Go map. -/
def sortMeta (m : List (String × String)) : List (String × String) :=
  m.foldr insertMeta []

/-- One `"key":"value"` member of the metadata object. -/
def encMetaPair (kv : String × String) : List Char :=
  encStr kv.1 ++ ':' :: encStr kv.2

/-- JSON rendering of the metadata map (`null` for the nil map, otherwise an
object with sorted keys). -/
def encMeta (m : List (String × String)) : List Char :=
  match sortMeta m with
  | [] => ("null").data
  | e :: es =>
    objOpen :: encMetaPair e ++ es.flatMap (fun kv => ',' :: encMetaPair kv) ++
      [objClose]

/-- The JSON text `json.Marshal` produces for a legacy payload. -/
def legacySerialize (p : LegacyAttestationPayload) : List Char :=
  objOpen :: ("\"commit_sha\":").data ++ encStr p.commitSHA ++
    (",\"timestamp\":").data ++ encStr p.timestamp ++
    (",\"url\":").data ++ encStr p.url ++
    (",\"content\":").data ++ encStr p.content ++
    (",\"content_hash\":").data ++ encStr p.contentHash ++
    (",\"content_size\":").data ++ encInt p.contentSize ++
    (",\"metadata\":").data ++ encMeta p.metadata ++
    [objClose]

/-- Embedding of the legacy `(*AttestationPayload).Hash`. -/
def LegacyAttestationPayload.Hash (p : LegacyAttestationPayload) : List Nat :=
  sha256 (utf8Bytes (legacySerialize p))

/-- Embedding of the legacy `CreateAttestationPayload`: stores the arguments
verbatim and stamps `metadata` with the `GITHUB_REPOSITORY` environment
value, which is passed explicitly here. -/
def legacyCreateAttestationPayload (commitSHA timestamp url content
    contentHash : String) (contentSize : Int) (ghRepository : String) :
    LegacyAttestationPayload :=
  { commitSHA := commitSHA
    timestamp := timestamp
    url := url
    content := content
    contentHash := contentHash
    contentSize := contentSize
    metadata := [("repository", ghRepository)] }

/-- Go struct `VerificationResult` (minus the error-message list, which
carries no information the booleans do not). -/
structure VerificationResult where
  pkTokenVerified : Bool
  signedMessageVerified : Bool
  payloadHashVerified : Bool
  programHashVerified : Bool
  commitSHAVerified : Bool
  oracleVerified : Bool
deriving DecidableEq

/-- Embedding of `verifyCommitSHA`: a plain string comparison (the Go
function never returns a non-nil error). -/
def verifyCommitSHA (attestationCommitSHA currentCommitSHA : String) : Bool :=
  attestationCommitSHA == currentCommitSHA

/-- Embedding of the current-repository resolution in `verifyOracle`: the
`GITHUB_REPOSITORY` environment value if non-empty, otherwise the repository
extracted from `git remote get-url origin` (modelled by `gitFallback`:
`none` when the command fails, otherwise the extracted string, possibly
empty); an empty result is an error (`none`). -/
def resolveCurrentRepo (ghRepository : String) (gitFallback : Option String) :
    Option String :=
  if ghRepository ≠ "" then some ghRepository
  else
    match gitFallback with
    | none => none
    | some r => if r ≠ "" then some r else none

/-- Embedding of `verifyOracle`: `none` models a non-nil error (current
repository undeterminable, or `repository` metadata missing), otherwise the
comparison outcome. -/
def verifyOracle (attestationMetadata : List (String × String))
    (currentRepo : Option String) : Option Bool :=
  match currentRepo with
  | none => none
  | some repo =>
    match attestationMetadata.lookup "repository" with
    | none => none
    | some attestationRepo => some (attestationRepo == repo)

/-- Embedding of `VerifyAttestation` (the cited revision).  The external
crypto library calls are modelled by their outcomes: `pkTokenOk` for
`VerifyPKToken` and `recoveredMsg` for `VerifySignedMessage` (`none` on
error, in which case Go leaves `msg` as the nil slice, which `bytes.Equal`
treats as empty).  Every check runs unconditionally and records its own
boolean, exactly as in the Go code. -/
def VerifyAttestation (payload : LegacyAttestationPayload) (pkTokenOk : Bool)
    (recoveredMsg : Option (List Nat)) (currentCommitSHA : String)
    (ghRepository : String) (gitFallback : Option String) :
    VerificationResult :=
  let msg := recoveredMsg.getD []
  let hash := payload.Hash
  let toverify := legacyCreateAttestationPayload payload.commitSHA
    payload.timestamp payload.url payload.content payload.contentHash
    payload.contentSize ghRepository
  let hashToVerify := toverify.Hash
  { pkTokenVerified := pkTokenOk
    signedMessageVerified := recoveredMsg.isSome
    payloadHashVerified := msg == hash
    programHashVerified := msg == hashToVerify
    commitSHAVerified := verifyCommitSHA payload.commitSHA currentCommitSHA
    oracleVerified :=
      verifyOracle payload.metadata
        (resolveCurrentRepo ghRepository gitFallback) == some true }

/-- Embedding of `(*VerificationResult).IsVerificationSuccessful`. -/
def IsVerificationSuccessful (vr : VerificationResult) : Bool :=
  vr.pkTokenVerified && vr.signedMessageVerified && vr.payloadHashVerified &&
    vr.programHashVerified && vr.commitSHAVerified && vr.oracleVerified

/-- The verify entry point's exit code: `main` exits 0 when
`IsVerificationSuccessful` holds and 1 otherwise. -/
def mainExitCode (vr : VerificationResult) : Nat :=
  if IsVerificationSuccessful vr then 0 else 1

/-- Number of failing checks recorded in a result. -/
def countFailed (vr : VerificationResult) : Nat :=
  (if vr.pkTokenVerified then 0 else 1) +
    (if vr.signedMessageVerified then 0 else 1) +
    (if vr.payloadHashVerified then 0 else 1) +
    (if vr.programHashVerified then 0 else 1) +
    (if vr.commitSHAVerified then 0 else 1) +
    (if vr.oracleVerified then 0 else 1)

/-- Replace the character at position `i` of a string: the single-byte
tampering operation of the spec's tampering property. -/
def setCharAt (s : String) (i : Nat) (c : Char) : String := ⟨s.data.set i c⟩

/-- A payload's digest read as a function into a finite codomain (32 bytes),
used to state the pigeonhole fact that a 256-bit digest over an infinite
payload space cannot be collision-free. -/
def hashByteFun (p : AttestationPayload) : Fin 32 → Fin 256 :=
  fun i => ⟨p.Hash.getD i 0 % 256, Nat.mod_lt _ (by decide)⟩

/-- The payload space is infinite (commit strings alone are unbounded). -/
instance : Infinite AttestationPayload :=
  Infinite.of_injective
    (fun n : Nat =>
      { commitSHA := ⟨List.replicate n 'a'⟩, timestamp := "", url := "",
        content := [], contentDigest := "", contentSize := 0,
        previousAttestation := none })
    (by
      intro a b h
      simp only [AttestationPayload.mk.injEq, and_true] at h
      have hlen := congrArg (fun s : String => s.data.length) h
      simpa using hlen)

/-! # Theorems -/

/-! ## Shape of SHA-256 digests -/

theorem wordBytes_mem_lt (w : Nat) : ∀ x ∈ wordBytes w, x < 256 := by
  intro x hx
  simp only [wordBytes, List.mem_cons, List.not_mem_nil, or_false] at hx
  rcases hx with h | h | h | h <;> subst h <;> exact Nat.mod_lt _ (by decide)

theorem sha256_length (m : List Nat) : (sha256 m).length = 32 := rfl

theorem sha256_ne_nil (m : List Nat) : sha256 m ≠ [] := by
  intro h
  have h32 : (sha256 m).length = 32 := sha256_length m
  rw [h] at h32
  simp at h32

theorem sha256_mem_lt (m : List Nat) : ∀ x ∈ sha256 m, x < 256 := by
  intro x hx
  simp only [sha256, stateBytes, List.mem_append] at hx
  rcases hx with ((((((h | h) | h) | h) | h) | h) | h) | h <;>
    exact wordBytes_mem_lt _ _ h

/-! ## Decimal rendering is invertible -/

theorem digitChar_toNat (m : Nat) (hm : m < 10) :
    (Nat.digitChar m).toNat = 48 + m := by
  interval_cases m <;> rfl

theorem digitChar_digit (m : Nat) (hm : m < 10) :
    48 ≤ (Nat.digitChar m).toNat ∧ (Nat.digitChar m).toNat ≤ 57 := by
  rw [digitChar_toNat m hm]
  omega

theorem ofDec_append_singleton (l : List Char) (c : Char) :
    ofDec (l ++ [c]) = ofDec l * 10 + (c.toNat - 48) := by
  simp [ofDec, List.foldl_append]

theorem ofDec_natDecCharsAux (fuel : Nat) :
    ∀ n, n < fuel → ofDec (natDecCharsAux fuel n) = n := by
  induction fuel with
  | zero => intro n h; omega
  | succ f ih =>
    intro n hn
    by_cases h : n < 10
    · simp only [natDecCharsAux, if_pos h, ofDec, List.foldl]
      rw [digitChar_toNat n h]
      omega
    · simp only [natDecCharsAux, if_neg h]
      rw [ofDec_append_singleton, ih (n / 10) (by omega),
        digitChar_toNat (n % 10) (by omega)]
      omega

theorem ofDec_natDecChars (n : Nat) : ofDec (natDecChars n) = n :=
  ofDec_natDecCharsAux (n + 1) n (by omega)

theorem natDecChars_ne_nil (n : Nat) : natDecChars n ≠ [] := by
  unfold natDecChars natDecCharsAux
  by_cases h : n < 10 <;> simp [h]

theorem natDecCharsAux_digits (fuel : Nat) :
    ∀ n c, c ∈ natDecCharsAux fuel n → 48 ≤ c.toNat ∧ c.toNat ≤ 57 := by
  induction fuel with
  | zero => intro n c hc; simp [natDecCharsAux] at hc
  | succ f ih =>
    intro n c hc
    by_cases h : n < 10
    · simp only [natDecCharsAux, if_pos h, List.mem_singleton] at hc
      subst hc
      exact digitChar_digit n h
    · simp only [natDecCharsAux, if_neg h, List.mem_append,
        List.mem_singleton] at hc
      rcases hc with hc | hc
      · exact ih _ _ hc
      · subst hc
        exact digitChar_digit (n % 10) (by omega)

theorem natDecChars_digits (n : Nat) :
    ∀ c ∈ natDecChars n, 48 ≤ c.toNat ∧ c.toNat ≤ 57 := fun c hc =>
  natDecCharsAux_digits (n + 1) n c hc

theorem digit_run_cancel (a1 : List Char) :
    ∀ (a2 r1 r2 : List Char),
      (∀ c ∈ a1, 48 ≤ c.toNat ∧ c.toNat ≤ 57) →
      (∀ c ∈ a2, 48 ≤ c.toNat ∧ c.toNat ≤ 57) →
      (∀ c, r1.head? = some c → ¬(48 ≤ c.toNat ∧ c.toNat ≤ 57)) →
      (∀ c, r2.head? = some c → ¬(48 ≤ c.toNat ∧ c.toNat ≤ 57)) →
      a1 ++ r1 = a2 ++ r2 → a1 = a2 ∧ r1 = r2 := by
  induction a1 with
  | nil =>
    intro a2 r1 r2 _ h2 hr1 _ heq
    cases a2 with
    | nil => simpa using heq
    | cons c cs =>
      simp only [List.nil_append, List.cons_append] at heq
      exfalso
      exact hr1 c (by rw [heq]; rfl) (h2 c (by simp))
  | cons c cs ih =>
    intro a2 r1 r2 h1 h2 hr1 hr2 heq
    cases a2 with
    | nil =>
      simp only [List.cons_append, List.nil_append] at heq
      exfalso
      exact hr2 c (by rw [← heq]; rfl) (h1 c (by simp))
    | cons d ds =>
      simp only [List.cons_append, List.cons.injEq] at heq
      obtain ⟨hcd, htl⟩ := heq
      subst hcd
      obtain ⟨he, hr⟩ := ih ds r1 r2 (fun x hx => h1 x (by simp [hx]))
        (fun x hx => h2 x (by simp [hx])) hr1 hr2 htl
      exact ⟨by rw [he], hr⟩

theorem natDecChars_cancel (n1 n2 : Nat) (r1 r2 : List Char)
    (hr1 : ∀ c, r1.head? = some c → ¬(48 ≤ c.toNat ∧ c.toNat ≤ 57))
    (hr2 : ∀ c, r2.head? = some c → ¬(48 ≤ c.toNat ∧ c.toNat ≤ 57))
    (heq : natDecChars n1 ++ r1 = natDecChars n2 ++ r2) :
    n1 = n2 ∧ r1 = r2 := by
  obtain ⟨ha, hr⟩ := digit_run_cancel (natDecChars n1) (natDecChars n2) r1 r2
    (natDecChars_digits n1) (natDecChars_digits n2) hr1 hr2 heq
  refine ⟨?_, hr⟩
  have := congrArg ofDec ha
  rwa [ofDec_natDecChars, ofDec_natDecChars] at this

/-! ## JSON string escaping is invertible -/

theorem hexVal_digitChar (m : Nat) (hm : m < 16) :
    hexVal (Nat.digitChar m) = m := by
  interval_cases m <;> rfl

theorem decodeStrBodyF_quote (fuel : Nat) (r : List Char) :
    decodeStrBodyF (fuel + 1) ('"' :: r) = some ([], r) := by
  simp [decodeStrBodyF]

theorem decodeStrBodyF_plain (fuel : Nat) (c : Char) (r : List Char)
    (h1 : c ≠ '"') (h2 : c ≠ '\\') :
    decodeStrBodyF (fuel + 1) (c :: r) =
      (decodeStrBodyF fuel r).map fun p => (c :: p.1, p.2) := by
  simp only [decodeStrBodyF]
  rw [if_neg h1, if_neg h2]

theorem decodeStrBodyF_esc (fuel : Nat) (e : Char) (r : List Char)
    (he : e ≠ 'u') :
    decodeStrBodyF (fuel + 1) ('\\' :: e :: r) =
      (decodeStrBodyF fuel r).map fun p => (unescChar e :: p.1, p.2) := by
  simp only [decodeStrBodyF]
  simp [he]

theorem decodeStrBodyF_u (fuel : Nat) (h1 h2 h3 h4 : Char) (r : List Char) :
    decodeStrBodyF (fuel + 1) ('\\' :: 'u' :: h1 :: h2 :: h3 :: h4 :: r) =
      (decodeStrBodyF fuel r).map fun p =>
        (Char.ofNat
          (((hexVal h1 * 16 + hexVal h2) * 16 + hexVal h3) * 16 + hexVal h4)
          :: p.1, p.2) := by
  simp [decodeStrBodyF]

theorem escChar_plain (c : Char) (h1 : c ≠ '"') (h2 : c ≠ '\\')
    (h3 : c ≠ '\n') (h4 : c ≠ '\r') (h5 : c ≠ '\t') (h6 : ¬c.toNat < 0x20)
    (h7 : c ≠ '<') (h8 : c ≠ '>') (h9 : c ≠ '&') (h10 : ¬c.toNat = 0x2028)
    (h11 : ¬c.toNat = 0x2029) : escChar c = [c] := by
  simp [escChar, h1, h2, h3, h4, h5, h6, h7, h8, h9, h10, h11]

theorem decodeStrBodyF_escBody (s : List Char) :
    ∀ (fuel : Nat) (r : List Char), s.length < fuel →
      decodeStrBodyF fuel (escBody s ++ '"' :: r) = some (s, r) := by
  induction s with
  | nil =>
    intro fuel r hf
    cases fuel with
    | zero => omega
    | succ f => simpa [escBody] using decodeStrBodyF_quote f r
  | cons c cs ih =>
    intro fuel r hf
    cases fuel with
    | zero => omega
    | succ f =>
      have hcs : cs.length < f := by
        simp only [List.length_cons] at hf
        omega

      have hsplit : escBody (c :: cs) ++ '"' :: r =
          escChar c ++ (escBody cs ++ '"' :: r) := by
        simp [escBody]
      rw [hsplit]
      by_cases h1 : c = '"'
      · subst h1
        rw [show escChar '"' = ['\\', '"'] from rfl]
        rw [List.cons_append, List.cons_append, List.nil_append,
          decodeStrBodyF_esc f _ _ (by decide), ih f r hcs]
        rfl
      · by_cases h2 : c = '\\'
        · subst h2
          rw [show escChar '\\' = ['\\', '\\'] from rfl]
          rw [List.cons_append, List.cons_append, List.nil_append,
            decodeStrBodyF_esc f _ _ (by decide), ih f r hcs]
          rfl
        · by_cases h3 : c = '\n'
          · subst h3
            rw [show escChar '\n' = ['\\', 'n'] from rfl]
            rw [List.cons_append, List.cons_append, List.nil_append,
              decodeStrBodyF_esc f _ _ (by decide), ih f r hcs]
            rfl
          · by_cases h4 : c = '\r'
            · subst h4
              rw [show escChar '\r' = ['\\', 'r'] from rfl]
              rw [List.cons_append, List.cons_append, List.nil_append,
                decodeStrBodyF_esc f _ _ (by decide), ih f r hcs]
              rfl
            · by_cases h5 : c = '\t'
              · subst h5
                rw [show escChar '\t' = ['\\', 't'] from rfl]
                rw [List.cons_append, List.cons_append, List.nil_append,
                  decodeStrBodyF_esc f _ _ (by decide), ih f r hcs]
                rfl
              · by_cases h6 : c.toNat < 0x20
                · rw [show escChar c =
                      ['\\', 'u', '0', '0', Nat.digitChar (c.toNat / 16),
                        Nat.digitChar (c.toNat % 16)] by
                    simp [escChar, h1, h2, h3, h4, h5, h6]]
                  simp only [List.cons_append, List.nil_append]
                  rw [decodeStrBodyF_u f, ih f r hcs]
                  have hv1 : hexVal (Nat.digitChar (c.toNat / 16)) =
                      c.toNat / 16 := hexVal_digitChar _ (by omega)
                  have hv2 : hexVal (Nat.digitChar (c.toNat % 16)) =
                      c.toNat % 16 := hexVal_digitChar _ (by omega)
                  have hv0 : hexVal '0' = 0 := rfl
                  simp only [Option.map_some', hv0, hv1, hv2]
                  have hc : ((0 * 16 + 0) * 16 + c.toNat / 16) * 16 +
                      c.toNat % 16 = c.toNat := by omega
                  rw [hc, Char.ofNat_toNat]
                · by_cases h7 : c = '<'
                  · subst h7
                    rw [show escChar '<' = ['\\', 'u', '0', '0', '3', 'c']
                      from rfl]
                    simp only [List.cons_append, List.nil_append]
                    rw [decodeStrBodyF_u f, ih f r hcs]
                    rfl
                  · by_cases h8 : c = '>'
                    · subst h8
                      rw [show escChar '>' = ['\\', 'u', '0', '0', '3', 'e']
                        from rfl]
                      simp only [List.cons_append, List.nil_append]
                      rw [decodeStrBodyF_u f, ih f r hcs]
                      rfl
                    · by_cases h9 : c = '&'
                      · subst h9
                        rw [show escChar '&' =
                          ['\\', 'u', '0', '0', '2', '6'] from rfl]
                        simp only [List.cons_append, List.nil_append]
                        rw [decodeStrBodyF_u f, ih f r hcs]
                        rfl
                      · by_cases h10 : c.toNat = 0x2028
                        · have hcc : c = Char.ofNat 0x2028 := by
                            rw [← h10, Char.ofNat_toNat]
                          subst hcc
                          rw [show escChar (Char.ofNat 0x2028) =
                            ['\\', 'u', '2', '0', '2', '8'] from rfl]
                          simp only [List.cons_append, List.nil_append]
                          rw [decodeStrBodyF_u f, ih f r hcs]
                          rfl
                        · by_cases h11 : c.toNat = 0x2029
                          · have hcc : c = Char.ofNat 0x2029 := by
                              rw [← h11, Char.ofNat_toNat]
                            subst hcc
                            rw [show escChar (Char.ofNat 0x2029) =
                              ['\\', 'u', '2', '0', '2', '9'] from rfl]
                            simp only [List.cons_append, List.nil_append]
                            rw [decodeStrBodyF_u f, ih f r hcs]
                            rfl
                          · rw [escChar_plain c h1 h2 h3 h4 h5 h6 h7 h8 h9
                              h10 h11]
                            rw [List.singleton_append,
                              decodeStrBodyF_plain f c _ h1 h2, ih f r hcs]
                            rfl

theorem escChar_length_pos (c : Char) : 1 ≤ (escChar c).length := by
  rw [escChar]
  by_cases h1 : c = '"'
  · rw [if_pos h1]; exact Nat.succ_le_succ (Nat.zero_le _)
  · rw [if_neg h1]
    by_cases h2 : c = '\\'
    · rw [if_pos h2]; exact Nat.succ_le_succ (Nat.zero_le _)
    · rw [if_neg h2]
      by_cases h3 : c = '\n'
      · rw [if_pos h3]; exact Nat.succ_le_succ (Nat.zero_le _)
      · rw [if_neg h3]
        by_cases h4 : c = '\r'
        · rw [if_pos h4]; exact Nat.succ_le_succ (Nat.zero_le _)
        · rw [if_neg h4]
          by_cases h5 : c = '\t'
          · rw [if_pos h5]; exact Nat.succ_le_succ (Nat.zero_le _)
          · rw [if_neg h5]
            by_cases h6 : c.toNat < 0x20
            · rw [if_pos h6]; exact Nat.succ_le_succ (Nat.zero_le _)
            · rw [if_neg h6]
              by_cases h7 : c = '<'
              · rw [if_pos h7]; exact Nat.succ_le_succ (Nat.zero_le _)
              · rw [if_neg h7]
                by_cases h8 : c = '>'
                · rw [if_pos h8]; exact Nat.succ_le_succ (Nat.zero_le _)
                · rw [if_neg h8]
                  by_cases h9 : c = '&'
                  · rw [if_pos h9]; exact Nat.succ_le_succ (Nat.zero_le _)
                  · rw [if_neg h9]
                    by_cases h10 : c.toNat = 0x2028
                    · rw [if_pos h10]; exact Nat.succ_le_succ (Nat.zero_le _)
                    · rw [if_neg h10]
                      by_cases h11 : c.toNat = 0x2029
                      · rw [if_pos h11]; exact Nat.succ_le_succ (Nat.zero_le _)
                      · rw [if_neg h11]
                        exact Nat.succ_le_succ (Nat.zero_le _)

theorem escBody_length_ge (s : List Char) : s.length ≤ (escBody s).length := by
  induction s with
  | nil => simp [escBody]
  | cons c cs ih =>
    have : escBody (c :: cs) = escChar c ++ escBody cs := by simp [escBody]
    rw [this, List.length_append, List.length_cons]
    have := escChar_length_pos c
    omega

theorem decodeString_encStr (s : String) (r : List Char) :
    decodeString (encStr s ++ r) = some (s.data, r) := by
  have hsplit : encStr s ++ r = '"' :: (escBody s.data ++ '"' :: r) := by
    simp [encStr]
  rw [hsplit]
  have hstep : decodeString ('"' :: (escBody s.data ++ '"' :: r)) =
      decodeStrBodyF ('"' :: (escBody s.data ++ '"' :: r)).length
        (escBody s.data ++ '"' :: r) := by
    simp [decodeString]
  rw [hstep]
  apply decodeStrBodyF_escBody
  have h1 := escBody_length_ge s.data
  simp only [List.length_cons, List.length_append]
  omega

theorem encStr_cancel (s1 s2 : String) (r1 r2 : List Char)
    (heq : encStr s1 ++ r1 = encStr s2 ++ r2) : s1 = s2 ∧ r1 = r2 := by
  have h1 := decodeString_encStr s1 r1
  rw [heq, decodeString_encStr s2 r2] at h1
  simp only [Option.some.injEq, Prod.mk.injEq] at h1
  exact ⟨String.ext h1.1.symm, h1.2.symm⟩

/-! ## Base64 is invertible -/

theorem b64Val_b64Char (n : Nat) (hn : n < 64) : b64Val (b64Char n) = n := by
  interval_cases n <;> rfl

theorem b64Alphabet_length : b64Alphabet.length = 64 := rfl

theorem b64Char_ne_eq (n : Nat) : b64Char n ≠ '=' := by
  by_cases h : n < 64
  · interval_cases n <;> decide
  · rw [b64Char, List.getD_eq_default _ _ (by rw [b64Alphabet_length]; omega)]
    decide

theorem b64Char_ne_quote (n : Nat) : b64Char n ≠ '"' := by
  by_cases h : n < 64
  · interval_cases n <;> decide
  · rw [b64Char, List.getD_eq_default _ _ (by rw [b64Alphabet_length]; omega)]
    decide

theorem b64Char_ne_backslash (n : Nat) : b64Char n ≠ '\\' := by
  by_cases h : n < 64
  · interval_cases n <;> decide
  · rw [b64Char, List.getD_eq_default _ _ (by rw [b64Alphabet_length]; omega)]
    decide

theorem b64Decode_b64Chars_aux (n : Nat) :
    ∀ (bs : List Nat), bs.length ≤ n → (∀ b ∈ bs, b < 256) →
      b64Decode (b64Chars bs) = some bs := by
  induction n with
  | zero =>
    intro bs hlen _
    obtain rfl : bs = [] := List.length_eq_zero.mp (by omega)
    rfl
  | succ m ih =>
    intro bs hlen hb
    rcases bs with _ | ⟨b0, _ | ⟨b1, _ | ⟨b2, rest⟩⟩⟩
    · rfl
    · have h0 : b0 < 256 := hb b0 (by simp)
      show b64Decode [b64Char (b0 / 4), b64Char (b0 % 4 * 16), '=', '='] =
        some [b0]
      simp only [b64Decode]
      split_ifs with h
      · simp only [Option.some.injEq, List.cons.injEq, and_true]
        rw [b64Val_b64Char _ (by omega), b64Val_b64Char _ (by omega)]
        omega
      · exact absurd trivial h
    · have h0 : b0 < 256 := hb b0 (by simp)
      have h1 : b1 < 256 := hb b1 (by simp)
      show b64Decode [b64Char (b0 / 4), b64Char (b0 % 4 * 16 + b1 / 16),
        b64Char (b1 % 16 * 4), '='] = some [b0, b1]
      simp only [b64Decode]
      split_ifs with h
      · exact absurd h (b64Char_ne_eq _)
      · simp only [Option.some.injEq, List.cons.injEq, and_true]
        rw [b64Val_b64Char _ (by omega), b64Val_b64Char _ (by omega),
          b64Val_b64Char _ (by omega)]
        exact ⟨by omega, by omega⟩
    · have h0 : b0 < 256 := hb b0 (by simp)
      have h1 : b1 < 256 := hb b1 (by simp)
      have h2 : b2 < 256 := hb b2 (by simp)
      have hlen' : rest.length ≤ m := by
        simp only [List.length_cons] at hlen
        omega
      have hrest : b64Decode (b64Chars rest) = some rest :=
        ih rest hlen' (fun b hbm => hb b (by simp [hbm]))
      show b64Decode (b64Char (b0 / 4) :: b64Char (b0 % 4 * 16 + b1 / 16) ::
        b64Char (b1 % 16 * 4 + b2 / 64) :: b64Char (b2 % 64) ::
        b64Chars rest) = some (b0 :: b1 :: b2 :: rest)
      simp only [b64Decode]
      split_ifs with h h'
      · exact absurd h (b64Char_ne_eq _)
      · exact absurd h' (b64Char_ne_eq _)
      · rw [hrest]
        simp only [Option.map_some', Option.some.injEq, List.cons.injEq]
        rw [b64Val_b64Char _ (by omega), b64Val_b64Char _ (by omega),
          b64Val_b64Char _ (by omega), b64Val_b64Char _ (by omega)]
        exact ⟨by omega, by omega, by omega, trivial⟩

theorem b64Chars_inj (bs1 bs2 : List Nat) (h1 : ∀ b ∈ bs1, b < 256)
    (h2 : ∀ b ∈ bs2, b < 256) (heq : b64Chars bs1 = b64Chars bs2) :
    bs1 = bs2 := by
  have e1 := b64Decode_b64Chars_aux bs1.length bs1 (le_refl _) h1
  rw [heq, b64Decode_b64Chars_aux (bs1.length + bs2.length) bs2 (by omega) h2]
    at e1
  exact (Option.some.injEq _ _ ▸ e1).symm

theorem b64Chars_not_special (bs : List Nat) :
    ∀ c ∈ b64Chars bs, c ≠ '"' ∧ c ≠ '\\' := by
  induction bs using b64Chars.induct with
  | case1 => simp [b64Chars]
  | case2 b0 =>
    intro c hc
    simp only [b64Chars, List.mem_cons, List.not_mem_nil, or_false] at hc
    rcases hc with h | h | h | h <;> subst h <;>
      first
        | exact ⟨b64Char_ne_quote _, b64Char_ne_backslash _⟩
        | decide
  | case3 b0 b1 =>
    intro c hc
    simp only [b64Chars, List.mem_cons, List.not_mem_nil, or_false] at hc
    rcases hc with h | h | h | h <;> subst h <;>
      first
        | exact ⟨b64Char_ne_quote _, b64Char_ne_backslash _⟩
        | decide
  | case4 b0 b1 b2 rest ih =>
    intro c hc
    simp only [b64Chars, List.mem_cons] at hc
    rcases hc with h | h | h | h | h
    · subst h; exact ⟨b64Char_ne_quote _, b64Char_ne_backslash _⟩
    · subst h; exact ⟨b64Char_ne_quote _, b64Char_ne_backslash _⟩
    · subst h; exact ⟨b64Char_ne_quote _, b64Char_ne_backslash _⟩
    · subst h; exact ⟨b64Char_ne_quote _, b64Char_ne_backslash _⟩
    · exact ih c h

theorem decodeStrBodyF_plain_run (l : List Char)
    (hl : ∀ c ∈ l, c ≠ '"' ∧ c ≠ '\\') :
    ∀ (fuel : Nat) (r : List Char), l.length < fuel →
      decodeStrBodyF fuel (l ++ '"' :: r) = some (l, r) := by
  induction l with
  | nil =>
    intro fuel r hf
    cases fuel with
    | zero => omega
    | succ f => simpa using decodeStrBodyF_quote f r
  | cons c cs ih =>
    intro fuel r hf
    cases fuel with
    | zero => omega
    | succ f =>
      obtain ⟨hq, hb⟩ := hl c (by simp)
      rw [List.cons_append, decodeStrBodyF_plain f c _ hq hb,
        ih (fun x hx => hl x (by simp [hx])) f r
          (by simp only [List.length_cons] at hf; omega)]
      rfl

/-! ## UTF-8 is invertible -/

theorem utf8DecodeF_utf8Bytes (s : List Char) :
    ∀ (fuel : Nat), s.length < fuel →
      utf8DecodeF fuel (utf8Bytes s) = some s := by
  induction s with
  | nil =>
    intro fuel hf
    cases fuel with
    | zero => omega
    | succ f => simp [utf8Bytes, utf8DecodeF]
  | cons c cs ih =>
    intro fuel hf
    cases fuel with
    | zero => omega
    | succ f =>
      have hcs : cs.length < f := by
        simp only [List.length_cons] at hf
        omega
      have hih := ih f hcs
      have hsplit : utf8Bytes (c :: cs) = utf8Char c ++ utf8Bytes cs := by
        simp [utf8Bytes]
      rw [hsplit]
      by_cases hv1 : c.toNat < 0x80
      · rw [show utf8Char c = [c.toNat] by simp [utf8Char, hv1]]
        simp only [List.cons_append, List.nil_append, utf8DecodeF,
          if_pos hv1, hih, Option.map_some', Char.ofNat_toNat]
      · by_cases hv2 : c.toNat < 0x800
        · rw [show utf8Char c = [0xc0 + c.toNat / 64, 0x80 + c.toNat % 64] by
            simp [utf8Char, hv1, hv2]]
          simp only [List.cons_append, List.nil_append, utf8DecodeF,
            if_neg (by omega : ¬0xc0 + c.toNat / 64 < 0x80),
            if_pos (by omega : 0xc0 + c.toNat / 64 < 0xe0), hih,
            Option.map_some']
          have harith : (0xc0 + c.toNat / 64 - 0xc0) * 64 +
              (0x80 + c.toNat % 64 - 0x80) = c.toNat := by omega
          rw [harith, Char.ofNat_toNat]
        · by_cases hv3 : c.toNat < 0x10000
          · rw [show utf8Char c = [0xe0 + c.toNat / 4096,
                0x80 + c.toNat / 64 % 64, 0x80 + c.toNat % 64] by
              simp [utf8Char, hv1, hv2, hv3]]
            simp only [List.cons_append, List.nil_append, utf8DecodeF,
              if_neg (by omega : ¬0xe0 + c.toNat / 4096 < 0x80),
              if_neg (by omega : ¬0xe0 + c.toNat / 4096 < 0xe0),
              if_pos (by omega : 0xe0 + c.toNat / 4096 < 0xf0), hih,
              Option.map_some']
            have harith : (0xe0 + c.toNat / 4096 - 0xe0) * 4096 +
                (0x80 + c.toNat / 64 % 64 - 0x80) * 64 +
                (0x80 + c.toNat % 64 - 0x80) = c.toNat := by omega
            rw [harith, Char.ofNat_toNat]
          · rw [show utf8Char c = [0xf0 + c.toNat / 262144,
                0x80 + c.toNat / 4096 % 64, 0x80 + c.toNat / 64 % 64,
                0x80 + c.toNat % 64] by
              simp [utf8Char, hv1, hv2, hv3]]
            simp only [List.cons_append, List.nil_append, utf8DecodeF,
              if_neg (by omega : ¬0xf0 + c.toNat / 262144 < 0x80),
              if_neg (by omega : ¬0xf0 + c.toNat / 262144 < 0xe0),
              if_neg (by omega : ¬0xf0 + c.toNat / 262144 < 0xf0), hih,
              Option.map_some']
            have harith : (0xf0 + c.toNat / 262144 - 0xf0) * 262144 +
                (0x80 + c.toNat / 4096 % 64 - 0x80) * 4096 +
                (0x80 + c.toNat / 64 % 64 - 0x80) * 64 +
                (0x80 + c.toNat % 64 - 0x80) = c.toNat := by omega
            rw [harith, Char.ofNat_toNat]

theorem utf8Bytes_inj (s1 s2 : List Char) (heq : utf8Bytes s1 = utf8Bytes s2) :
    s1 = s2 := by
  have e1 := utf8DecodeF_utf8Bytes s1 (s1.length + s2.length + 1) (by omega)
  rw [heq, utf8DecodeF_utf8Bytes s2 (s1.length + s2.length + 1) (by omega)]
    at e1
  exact (Option.some.injEq _ _ ▸ e1).symm

theorem encInt_cancel (i1 i2 : Int) (r1 r2 : List Char)
    (hr1 : ∀ c, r1.head? = some c → ¬(48 ≤ c.toNat ∧ c.toNat ≤ 57))
    (hr2 : ∀ c, r2.head? = some c → ¬(48 ≤ c.toNat ∧ c.toNat ≤ 57))
    (heq : encInt i1 ++ r1 = encInt i2 ++ r2) : i1 = i2 ∧ r1 = r2 := by
  by_cases s1 : i1 < 0 <;> by_cases s2 : i2 < 0
  · simp only [encInt, if_pos s1, if_pos s2, List.cons_append,
      List.cons.injEq] at heq
    obtain ⟨n, hr⟩ := natDecChars_cancel _ _ r1 r2 hr1 hr2 heq.2
    exact ⟨by omega, hr⟩
  · exfalso
    simp only [encInt, if_pos s1, if_neg s2] at heq
    cases hnd : natDecChars i2.toNat with
    | nil => exact natDecChars_ne_nil _ hnd
    | cons d ds =>
      rw [hnd] at heq
      simp only [List.cons_append, List.cons.injEq] at heq
      have hd := natDecChars_digits i2.toNat d (by rw [hnd]; simp)
      rw [← heq.1] at hd
      simp at hd
  · exfalso
    simp only [encInt, if_pos s2, if_neg s1] at heq
    cases hnd : natDecChars i1.toNat with
    | nil => exact natDecChars_ne_nil _ hnd
    | cons d ds =>
      rw [hnd] at heq
      simp only [List.cons_append, List.cons.injEq] at heq
      have hd := natDecChars_digits i1.toNat d (by rw [hnd]; simp)
      rw [heq.1] at hd
      simp at hd
  · simp only [encInt, if_neg s1, if_neg s2] at heq
    obtain ⟨n, hr⟩ := natDecChars_cancel _ _ r1 r2 hr1 hr2 heq
    exact ⟨by omega, hr⟩

/-! ## Payload serialization is injective -/

theorem mapFinVal_lt (l : List Byte) : ∀ b ∈ l.map Fin.val, b < 256 := by
  intro b hb
  simp only [List.mem_map] at hb
  obtain ⟨x, _, hx⟩ := hb
  rw [← hx]
  exact x.isLt

theorem b64_quoted_cancel (bs1 bs2 : List Nat) (hb1 : ∀ b ∈ bs1, b < 256)
    (hb2 : ∀ b ∈ bs2, b < 256) (r1 r2 : List Char)
    (htail : b64Chars bs1 ++ '"' :: r1 = b64Chars bs2 ++ '"' :: r2) :
    bs1 = bs2 ∧ r1 = r2 := by
  have d1 : decodeStrBodyF ((b64Chars bs1 ++ '"' :: r1).length + 1)
      (b64Chars bs1 ++ '"' :: r1) = some (b64Chars bs1, r1) :=
    decodeStrBodyF_plain_run _ (b64Chars_not_special bs1) _ _
      (by rw [List.length_append]; omega)
  rw [htail] at d1
  rw [decodeStrBodyF_plain_run _ (b64Chars_not_special bs2) _ _
    (by rw [List.length_append]; omega)] at d1
  simp only [Option.some.injEq, Prod.mk.injEq] at d1
  exact ⟨b64Chars_inj bs1 bs2 hb1 hb2 d1.1.symm, d1.2.symm⟩

theorem head_comma_not_digit (rest : List Char) :
    ∀ c, (',' :: rest).head? = some c → ¬(48 ≤ c.toNat ∧ c.toNat ≤ 57) := by
  intro c hc
  simp only [List.head?_cons, Option.some.injEq] at hc
  rw [← hc]
  decide

theorem encDetails_inj (o1 o2 : Option AttestationDetails)
    (heq : encDetails o1 = encDetails o2) : o1 = o2 := by
  cases o1 with
  | none =>
    cases o2 with
    | none => rfl
    | some d2 =>
      exfalso
      injection heq with h _
      exact absurd h (by decide)
  | some d1 =>
    cases o2 with
    | none =>
      exfalso
      injection heq with h _
      exact absurd h (by decide)
    | some d2 =>
      injection heq with _ h1
      simp only [List.append_eq, List.append_assoc, List.cons_append,
        List.nil_append, List.cons.injEq, true_and] at h1
      obtain ⟨hd, h2⟩ := encStr_cancel _ _ _ _ h1
      simp only [List.cons.injEq, List.nil_append, true_and] at h2
      obtain ⟨ha, _⟩ := encStr_cancel _ _ _ _ h2
      cases d1
      cases d2
      simp only [Option.some.injEq, AttestationDetails.mk.injEq]
      exact ⟨hd, ha⟩

theorem serializePayload_inj (p1 p2 : AttestationPayload)
    (heq : serializePayload p1 = serializePayload p2) : p1 = p2 := by
  unfold serializePayload at heq
  injection heq with _ h1
  simp only [List.append_eq, List.append_assoc, List.cons_append,
    List.nil_append, List.cons.injEq, true_and] at h1
  obtain ⟨e_commit, h2⟩ := encStr_cancel _ _ _ _ h1
  simp only [List.cons.injEq, List.nil_append, true_and] at h2
  obtain ⟨e_ts, h3⟩ := encStr_cancel _ _ _ _ h2
  simp only [List.cons.injEq, List.nil_append, true_and] at h3
  obtain ⟨e_url, h4⟩ := encStr_cancel _ _ _ _ h3
  simp only [List.cons.injEq, List.nil_append, true_and] at h4
  obtain ⟨e_content, h5⟩ := b64_quoted_cancel _ _
    (mapFinVal_lt p1.content) (mapFinVal_lt p2.content) _ _ h4
  simp only [List.cons.injEq, List.nil_append, true_and] at h5
  obtain ⟨e_digest, h6⟩ := encStr_cancel _ _ _ _ h5
  simp only [List.cons.injEq, List.nil_append, true_and] at h6
  obtain ⟨e_size, h7⟩ := encInt_cancel _ _ _ _
    (head_comma_not_digit _) (head_comma_not_digit _) h6
  simp only [List.cons.injEq, List.nil_append, true_and] at h7
  have e_prev := encDetails_inj _ _ (List.append_cancel_right h7)
  have e_content' : p1.content = p2.content :=
    List.map_injective_iff.mpr Fin.val_injective e_content
  cases p1
  cases p2
  simp only [AttestationPayload.mk.injEq]
  exact ⟨e_commit, e_ts, e_url, e_content', e_digest, e_size, e_prev⟩

/-! ## The legacy serializer determines the content field -/

theorem legacySerialize_content_eq (p1 p2 : LegacyAttestationPayload)
    (heq : legacySerialize p1 = legacySerialize p2) :
    p1.content = p2.content := by
  unfold legacySerialize at heq
  injection heq with _ h1
  simp only [List.append_eq, List.append_assoc, List.cons_append,
    List.nil_append, List.cons.injEq, true_and] at h1
  obtain ⟨e_commit, h2⟩ := encStr_cancel _ _ _ _ h1
  simp only [List.cons.injEq, List.nil_append, true_and] at h2
  obtain ⟨e_ts, h3⟩ := encStr_cancel _ _ _ _ h2
  simp only [List.cons.injEq, List.nil_append, true_and] at h3
  obtain ⟨e_url, h4⟩ := encStr_cancel _ _ _ _ h3
  simp only [List.cons.injEq, List.nil_append, true_and] at h4
  obtain ⟨e_content, _⟩ := encStr_cancel _ _ _ _ h4
  exact e_content

/-- C1: the claim states that `CheckContentChanges` returns true (treat as
changed) when the file path is empty, missing or unparsable, and false only
when the parsed previous digest equals the current digest — in particular
true whenever the digests differ.  The code has the comparison inverted: with
a previous attestation whose digest differs from the current one it returns
`false`, and with an equal digest it returns `true`.  (The no-usable-record
branches do return true as claimed.)  This theorem evaluates the embedded
code on both a differing-digest and an equal-digest previous attestation,
exhibiting the inversion, and on the fail-open branches. -/
theorem checkContentChanges_digest_comparison_inverted :
    CheckContentChanges "sha256:aaaa" "previous_attestation.json"
      (some { payload := { commitSHA := "c", timestamp := "t", url := "u",
                           content := [], contentDigest := "sha256:bbbb",
                           contentSize := 0, previousAttestation := none },
              signature := [] }) = false ∧
    CheckContentChanges "sha256:aaaa" "previous_attestation.json"
      (some { payload := { commitSHA := "c", timestamp := "t", url := "u",
                           content := [], contentDigest := "sha256:aaaa",
                           contentSize := 0, previousAttestation := none },
              signature := [] }) = true ∧
    CheckContentChanges "sha256:aaaa" "" none = true ∧
    CheckContentChanges "sha256:aaaa" "previous_attestation.json" none =
      true := by
  decide

/-- C5: when chain-linking is enabled (`skipPrevious = false`) and the linker
returns a previous-attestation pointer `prev`, the built payload's
`previous_attestation` field is exactly `prev`: the fetched details (with
their digest) when one was found, and absent (`none`) — with the build still
succeeding — when the linker reported not-found. -/
theorem createAttestation_previous_link (claims : IDTokenClaims)
    (url : String) (content : List Byte) (contentDigest : String)
    (contentSize : Int) (scriptExit : Nat)
    (detailsFile : Option (Option AttestationDetails))
    (prev : Option AttestationDetails)
    (hfetch : fetchPreviousAttestationDetails claims.workflowRef scriptExit
      detailsFile = .ok prev) :
    ∃ P, createAttestationPayloadStep claims url content contentDigest
        contentSize false scriptExit detailsFile = .ok P ∧
      P.previousAttestation = prev := by
  refine ⟨CreateAttestationPayload claims.timestamp claims.jobWorkflowSHA
    prev url content contentDigest contentSize, ?_, rfl⟩
  simp only [createAttestationPayloadStep, Bool.false_eq_true, if_false,
    hfetch]

/-- Witness for C5: a concrete run in which the linker finds a stored prior
attestation with digest `sha256:prevdigest` and the new payload links to
exactly that digest, and a concrete first-in-chain run (script exit code 2)
in which the link is absent and the build still succeeds. -/
theorem createAttestation_previous_link_witness :
    (∃ P, createAttestationPayloadStep
        { jobWorkflowSHA := "abc", iat := 1,
          workflowRef :=
            "kipz/url-oracle/.github/workflows/create-attestation.yml@refs/heads/main",
          runID := "", timestamp := "2024-01-01T00:00:00Z" }
        "https://example.com/a.json" [] "sha256:d" 0 false 0
        (some (some { digest := "sha256:prevdigest", artifactUrl := "/a" })) =
        .ok P ∧
      P.previousAttestation =
        some { digest := "sha256:prevdigest", artifactUrl := "/a" }) ∧
    (∃ P, createAttestationPayloadStep
        { jobWorkflowSHA := "abc", iat := 1,
          workflowRef :=
            "kipz/url-oracle/.github/workflows/create-attestation.yml@refs/heads/main",
          runID := "", timestamp := "2024-01-01T00:00:00Z" }
        "https://example.com/a.json" [] "sha256:d" 0 false 2 none = .ok P ∧
      P.previousAttestation = none) :=
  ⟨createAttestation_previous_link _ _ _ _ _ _ _ _ rfl,
   createAttestation_previous_link _ _ _ _ _ _ _ _ rfl⟩

/-- C6: in the builder's chain-link step, script exit code 2 (the
distinguished not-found signal) does not abort the build — the payload is
built with an absent link; any other non-zero script exit aborts the build
with an error, as does a details file that is present but cannot be
loaded. -/
theorem chainLink_notFound_vs_error (claims : IDTokenClaims) (url : String)
    (content : List Byte) (contentDigest : String) (contentSize : Int)
    (detailsFile : Option (Option AttestationDetails)) (pr : ParsedRef)
    (hparse : parseWorkflowRef claims.workflowRef = some pr) :
    (fetchPreviousAttestationDetails claims.workflowRef 2 detailsFile =
        .ok none ∧
      createAttestationPayloadStep claims url content contentDigest
        contentSize false 2 detailsFile =
        .ok (CreateAttestationPayload claims.timestamp claims.jobWorkflowSHA
          none url content contentDigest contentSize)) ∧
    (∀ se, se ≠ 0 → se ≠ 2 →
      isErr (createAttestationPayloadStep claims url content contentDigest
        contentSize false se detailsFile) = true) ∧
    (detailsFile = some none →
      isErr (createAttestationPayloadStep claims url content contentDigest
        contentSize false 0 detailsFile) = true) := by
  refine ⟨⟨?_, ?_⟩, ?_, ?_⟩
  · simp [fetchPreviousAttestationDetails, hparse]
  · simp [createAttestationPayloadStep, fetchPreviousAttestationDetails,
      hparse]
  · intro se hse0 hse2
    simp only [createAttestationPayloadStep, Bool.false_eq_true, if_false,
      fetchPreviousAttestationDetails, hparse, if_pos hse0, if_neg hse2,
      isErr]
  · intro hdf
    simp [createAttestationPayloadStep, fetchPreviousAttestationDetails,
      hparse, hdf, isErr]

/-- Witness for C6: with a well-formed workflow reference, exit code 2
proceeds with an absent link, exit code 7 aborts, and an unparsable details
file aborts. -/
theorem chainLink_notFound_vs_error_witness :
    (fetchPreviousAttestationDetails
        "kipz/url-oracle/.github/workflows/create-attestation.yml@refs/heads/main"
        2 (some none) = .ok none ∧
      createAttestationPayloadStep
        { jobWorkflowSHA := "abc", iat := 1,
          workflowRef :=
            "kipz/url-oracle/.github/workflows/create-attestation.yml@refs/heads/main",
          runID := "", timestamp := "2024-01-01T00:00:00Z" }
        "u" [] "sha256:d" 0 false 2 (some none) =
        .ok (CreateAttestationPayload "2024-01-01T00:00:00Z" "abc" none "u"
          [] "sha256:d" 0)) ∧
    isErr (createAttestationPayloadStep
      { jobWorkflowSHA := "abc", iat := 1,
        workflowRef :=
          "kipz/url-oracle/.github/workflows/create-attestation.yml@refs/heads/main",
        runID := "", timestamp := "2024-01-01T00:00:00Z" }
      "u" [] "sha256:d" 0 false 7 (some none)) = true ∧
    isErr (createAttestationPayloadStep
      { jobWorkflowSHA := "abc", iat := 1,
        workflowRef :=
          "kipz/url-oracle/.github/workflows/create-attestation.yml@refs/heads/main",
        runID := "", timestamp := "2024-01-01T00:00:00Z" }
      "u" [] "sha256:d" 0 false 0 (some none)) = true := by
  have h := chainLink_notFound_vs_error
    { jobWorkflowSHA := "abc", iat := 1,
      workflowRef :=
        "kipz/url-oracle/.github/workflows/create-attestation.yml@refs/heads/main",
      runID := "", timestamp := "2024-01-01T00:00:00Z" }
    "u" [] "sha256:d" 0 (some none)
    { repoFull := ("kipz/url-oracle").data,
      workflowFile := ("create-attestation.yml").data,
      branch := ("main").data } (by decide)
  exact ⟨h.1, h.2.1 7 (by decide) (by decide), h.2.2 rfl⟩

/-- C7 counterexample: the claim states that the workflow-reference parser
rejects every input that is not a five-segment path and a three-segment ref
joined by a single at-sign.  The code only requires *at least* two at-sign
parts and silently ignores everything after the second at-sign: this input
contains two at-signs (three split parts) yet parses successfully. -/
theorem parseWorkflowRef_accepts_double_at :
    (parseWorkflowRef
      "o/r/.github/workflows/f.yml@refs/heads/main@junk").isSome = true ∧
    (splitOnChar '@'
      ("o/r/.github/workflows/f.yml@refs/heads/main@junk").data).length =
      3 := by
  decide

/-- C7 (amended): the parser returns an error exactly when the input has no
at-sign (fewer than two split parts), or when its first at-sign part does not
have exactly five slash-segments, or when its second at-sign part does not
have exactly three slash-segments — content after a second at-sign is
ignored, not rejected; and every parse failure surfaces as an error from the
chain linker, never as a not-found result. -/
theorem parseWorkflowRef_error_characterization (r : String) :
    (parseWorkflowRef r = none ↔
      ((splitOnChar '@' r.data).length < 2 ∨
        (splitOnChar '/' ((splitOnChar '@' r.data).getD 0 [])).length ≠ 5 ∨
        (splitOnChar '/' ((splitOnChar '@' r.data).getD 1 [])).length ≠ 3)) ∧
    (parseWorkflowRef r = none →
      ∀ se df, isErr (fetchPreviousAttestationDetails r se df) = true) := by
  constructor
  · simp only [parseWorkflowRef]
    split_ifs with h1 h2 h3 <;> simp_all
  · intro hnone se df
    simp only [fetchPreviousAttestationDetails, hnone, isErr]

/-- Witness for C7's amended theorem: a reference with no at-sign fails to
parse, and the chain linker reports that failure as an error. -/
theorem parseWorkflowRef_error_characterization_witness :
    isErr (fetchPreviousAttestationDetails "no-at-sign-here" 0 none) =
      true := by
  exact (parseWorkflowRef_error_characterization "no-at-sign-here").2
    (by decide) 0 none

/-- C8: `ExtractClaimsFromIDToken` fails exactly when the token payload does
not parse or a required claim is absent (`job_workflow_sha` empty, `iat`
zero, `workflow_ref` empty); on success the returned timestamp is the
RFC 3339 UTC rendering of the token's `iat` claim — a function of the token
alone, not of any build-time clock. -/
theorem extractClaims_error_iff_and_timestamp (parsed : Option IDTokenClaims) :
    (isErr (ExtractClaimsFromIDToken parsed) = true ↔
      parsed = none ∨ ∃ c, parsed = some c ∧
        (c.jobWorkflowSHA = "" ∨ c.iat = 0 ∨ c.workflowRef = "")) ∧
    (∀ c out, parsed = some c → ExtractClaimsFromIDToken parsed = .ok out →
      out.timestamp = formatTimestampUTC c.iat) := by
  constructor
  · cases parsed with
    | none => simp [ExtractClaimsFromIDToken, isErr]
    | some c =>
      simp only [ExtractClaimsFromIDToken, Option.some.injEq]
      by_cases h1 : c.jobWorkflowSHA = "" <;>
        by_cases h2 : c.iat = 0 <;>
        by_cases h3 : c.workflowRef = "" <;>
        simp [h1, h2, h3, isErr]
  · intro c out hc hok
    subst hc
    simp only [ExtractClaimsFromIDToken] at hok
    by_cases h1 : c.jobWorkflowSHA = "" <;> simp [h1] at hok <;>
      by_cases h2 : c.iat = 0 <;> simp [h2] at hok <;>
      by_cases h3 : c.workflowRef = "" <;> simp [h3] at hok
    subst hok
    rfl

/-- Witness for C8: a concrete token whose `iat` is 1700000000 extracts
successfully, and the produced timestamp is exactly the RFC 3339 rendering
2023-11-14T22:13:20Z of that issued-at instant. -/
theorem extractClaims_error_iff_and_timestamp_witness :
    ExtractClaimsFromIDToken
      (some { jobWorkflowSHA := "abc", iat := 1700000000,
              workflowRef := "w", runID := "r", timestamp := "" }) =
      .ok { jobWorkflowSHA := "abc", iat := 1700000000, workflowRef := "w",
            runID := "r", timestamp := "2023-11-14T22:13:20Z" } ∧
    ("2023-11-14T22:13:20Z" : String) = formatTimestampUTC 1700000000 := by
  refine ⟨rfl, ?_⟩
  have h := (extractClaims_error_iff_and_timestamp
    (some { jobWorkflowSHA := "abc", iat := 1700000000, workflowRef := "w",
            runID := "r", timestamp := "" })).2
    { jobWorkflowSHA := "abc", iat := 1700000000, workflowRef := "w",
      runID := "r", timestamp := "" }
    { jobWorkflowSHA := "abc", iat := 1700000000, workflowRef := "w",
      runID := "r", timestamp := "2023-11-14T22:13:20Z" } rfl rfl
  exact h

/-- C2 counterexample: the claim states that every payload produced by the
payload constructor carries a recomputed digest and size regardless of what
the caller passes in.  The constructor in fact stores the caller-supplied
values verbatim: with empty content, a digest string `"bogus"` and size 7,
the resulting payload's `content_digest` is not the SHA-256 digest of its
content and its `content_size` is not its content's length. -/
theorem createAttestationPayload_stores_caller_values :
    (CreateAttestationPayload "t" "c" none "u" [] "bogus" 7).contentDigest ≠
      sha256DigestString
        (CreateAttestationPayload "t" "c" none "u" [] "bogus" 7).content ∧
    (CreateAttestationPayload "t" "c" none "u" [] "bogus" 7).contentSize ≠
      ((CreateAttestationPayload "t" "c" none "u" [] "bogus"
        7).content.length : Int) := by
  constructor
  · decide
  · decide

/-- C2 (amended): `CreateAttestationPayload` stores the caller-supplied
digest and size verbatim; the recomputation happens in `DownloadContent`,
whose outputs are what the builder passes in.  Every payload built from
`DownloadContent`'s outputs — as the builder does — has `content_digest`
equal to `"sha256:" ++ hex(SHA-256(content))` recomputed from its content
and `content_size` equal to its content's byte length. -/
theorem downloadContent_payload_digest_recomputed (timestamp commitSHA : String)
    (prev : Option AttestationDetails) (url : String) (status : Nat)
    (body : Option (List Byte)) (c : List Byte) (d : String) (s : Int)
    (hdl : DownloadContent status body = some (c, d, s)) :
    (CreateAttestationPayload timestamp commitSHA prev url c d
        s).contentDigest =
      sha256DigestString
        (CreateAttestationPayload timestamp commitSHA prev url c d
          s).content ∧
    (CreateAttestationPayload timestamp commitSHA prev url c d
        s).contentSize =
      ((CreateAttestationPayload timestamp commitSHA prev url c d
        s).content.length : Int) := by
  cases body with
  | none => simp [DownloadContent] at hdl
  | some content =>
    by_cases hs : status = 200
    · simp only [DownloadContent, hs, ne_eq, not_true_eq_false, if_false,
        ite_false, if_neg, Option.some.injEq, Prod.mk.injEq,
        reduceCtorEq] at hdl
      obtain ⟨hc, hd, hsz⟩ := by
        simpa using hdl
      subst hc
      rw [CreateAttestationPayload, ← hd, ← hsz]
      exact ⟨rfl, rfl⟩
    · simp [DownloadContent, hs] at hdl

/-- Witness for C2's amended theorem: downloading the two-byte body `hi`
yields a payload whose digest is the recomputed SHA-256 of its own content
and whose size is 2. -/
theorem downloadContent_payload_digest_recomputed_witness :
    (CreateAttestationPayload "t" "c" none "u" [104, 105]
        (sha256DigestString [104, 105]) 2).contentDigest =
      sha256DigestString
        (CreateAttestationPayload "t" "c" none "u" [104, 105]
          (sha256DigestString [104, 105]) 2).content ∧
    (CreateAttestationPayload "t" "c" none "u" [104, 105]
        (sha256DigestString [104, 105]) 2).contentSize =
      ((CreateAttestationPayload "t" "c" none "u" [104, 105]
        (sha256DigestString [104, 105]) 2).content.length : Int) :=
  downloadContent_payload_digest_recomputed "t" "c" none "u" 200
    (some [104, 105]) [104, 105] (sha256DigestString [104, 105]) 2 rfl

/-- C3: `VerifyAttestation` records each check's outcome in its own field of
the result — the identity-token, signed-message, commit-SHA and oracle
outcomes are each exactly their own check's verdict, regardless of the other
checks — and the verify entry point exits 0 exactly when all six recorded
checks pass; with exactly one failing check it still carries the other five
results and exits 1. -/
theorem verifyAttestation_exit_code_contract
    (payload : LegacyAttestationPayload) (pkTokenOk : Bool)
    (recoveredMsg : Option (List Nat)) (currentCommitSHA ghRepository : String)
    (gitFallback : Option String) (r : VerificationResult)
    (hr : r = VerifyAttestation payload pkTokenOk recoveredMsg
      currentCommitSHA ghRepository gitFallback) :
    (r.pkTokenVerified = pkTokenOk ∧
      r.signedMessageVerified = recoveredMsg.isSome ∧
      r.commitSHAVerified = verifyCommitSHA payload.commitSHA
        currentCommitSHA ∧
      r.oracleVerified = (verifyOracle payload.metadata
        (resolveCurrentRepo ghRepository gitFallback) == some true)) ∧
    (mainExitCode r = 0 ↔
      (r.pkTokenVerified = true ∧ r.signedMessageVerified = true ∧
        r.payloadHashVerified = true ∧ r.programHashVerified = true ∧
        r.commitSHAVerified = true ∧ r.oracleVerified = true)) ∧
    (countFailed r = 1 → mainExitCode r = 1) := by
  refine ⟨by subst hr; exact ⟨rfl, rfl, rfl, rfl⟩, ?_, ?_⟩
  · clear hr
    obtain ⟨b1, b2, b3, b4, b5, b6⟩ := r
    cases b1 <;> cases b2 <;> cases b3 <;> cases b4 <;> cases b5 <;>
      cases b6 <;> decide
  · clear hr
    obtain ⟨b1, b2, b3, b4, b5, b6⟩ := r
    cases b1 <;> cases b2 <;> cases b3 <;> cases b4 <;> cases b5 <;>
      cases b6 <;> decide

set_option maxRecDepth 10000 in
/-- Witness for C3: a concrete verification in which exactly one check (the
commit-SHA comparison) fails: the result records the single failure and the
entry point exits 1. -/
theorem verifyAttestation_exit_code_contract_witness :
    countFailed (VerifyAttestation
      (legacyCreateAttestationPayload "abc" "t" "u" "ct" "h" 0
        "kipz/url-oracle") true
      (some (legacyCreateAttestationPayload "abc" "t" "u" "ct" "h" 0
        "kipz/url-oracle").Hash) "other" "kipz/url-oracle" none) = 1 ∧
    mainExitCode (VerifyAttestation
      (legacyCreateAttestationPayload "abc" "t" "u" "ct" "h" 0
        "kipz/url-oracle") true
      (some (legacyCreateAttestationPayload "abc" "t" "u" "ct" "h" 0
        "kipz/url-oracle").Hash) "other" "kipz/url-oracle" none) = 1 := by
  have h := verifyAttestation_exit_code_contract
    (legacyCreateAttestationPayload "abc" "t" "u" "ct" "h" 0
      "kipz/url-oracle") true
    (some (legacyCreateAttestationPayload "abc" "t" "u" "ct" "h" 0
      "kipz/url-oracle").Hash) "other" "kipz/url-oracle" none
    (VerifyAttestation
      (legacyCreateAttestationPayload "abc" "t" "u" "ct" "h" 0
        "kipz/url-oracle") true
      (some (legacyCreateAttestationPayload "abc" "t" "u" "ct" "h" 0
        "kipz/url-oracle").Hash) "other" "kipz/url-oracle" none) rfl
  have hcount : countFailed (VerifyAttestation
      (legacyCreateAttestationPayload "abc" "t" "u" "ct" "h" 0
        "kipz/url-oracle") true
      (some (legacyCreateAttestationPayload "abc" "t" "u" "ct" "h" 0
        "kipz/url-oracle").Hash) "other" "kipz/url-oracle" none) = 1 := by
    decide
  exact ⟨hcount, h.2.2 hcount⟩

/-- C4: mutating a single character of a persisted payload's content without
re-signing changes the marshalled JSON of both the stored payload and the
verifier's rebuilt payload (so their digests can only agree with the
original signed digest through an outright SHA-256 collision), and whenever
the digests do differ, the payload-digest check (3) and the recomputation
check (4) both record failure while the signed-message check still passes
and the identity-token check keeps its own verdict. -/
theorem tampered_content_fails_digest_checks (p : LegacyAttestationPayload)
    (i : Nat) (c' : Char) (pkTokenOk : Bool)
    (currentCommitSHA ghRepository : String) (gitFallback : Option String)
    (hi : i < p.content.data.length)
    (hne : c' ≠ p.content.data.get ⟨i, hi⟩) :
    legacySerialize { p with content := setCharAt p.content i c' } ≠
      legacySerialize p ∧
    legacySerialize (legacyCreateAttestationPayload p.commitSHA p.timestamp
      p.url (setCharAt p.content i c') p.contentHash p.contentSize
      ghRepository) ≠ legacySerialize p ∧
    (LegacyAttestationPayload.Hash
        { p with content := setCharAt p.content i c' } ≠ p.Hash →
      (VerifyAttestation { p with content := setCharAt p.content i c' }
        pkTokenOk (some p.Hash) currentCommitSHA ghRepository
        gitFallback).payloadHashVerified = false) ∧
    ((legacyCreateAttestationPayload p.commitSHA p.timestamp p.url
        (setCharAt p.content i c') p.contentHash p.contentSize
        ghRepository).Hash ≠ p.Hash →
      (VerifyAttestation { p with content := setCharAt p.content i c' }
        pkTokenOk (some p.Hash) currentCommitSHA ghRepository
        gitFallback).programHashVerified = false) ∧
    (VerifyAttestation { p with content := setCharAt p.content i c' }
      pkTokenOk (some p.Hash) currentCommitSHA ghRepository
      gitFallback).signedMessageVerified = true ∧
    (VerifyAttestation { p with content := setCharAt p.content i c' }
      pkTokenOk (some p.Hash) currentCommitSHA ghRepository
      gitFallback).pkTokenVerified = pkTokenOk := by
  have hchanged : setCharAt p.content i c' ≠ p.content := by
    intro hS
    have hdata : p.content.data.set i c' = p.content.data :=
      congrArg String.data hS
    have h1 : (p.content.data.set i c').getD i c' = c' := by
      rw [List.getD_eq_getElem _ _ (by simpa using hi),
        List.getElem_set_self]
    rw [hdata, List.getD_eq_getElem _ _ hi] at h1
    exact hne h1.symm
  refine ⟨?_, ?_, ?_, ?_, rfl, rfl⟩
  · intro hser
    exact hchanged (legacySerialize_content_eq _ _ hser)
  · intro hser
    exact hchanged (legacySerialize_content_eq _ _ hser)
  · intro hH
    exact beq_eq_false_iff_ne.mpr (fun h => hH h.symm)
  · intro hH
    exact beq_eq_false_iff_ne.mpr (fun h => hH h.symm)

set_option maxRecDepth 10000 in
/-- Witness for C4: flipping the first character of a concrete payload's
content changes both serializations, the digests concretely differ, and the
verification of the tampered attestation against the original signed digest
fails checks 3 and 4 while checks 1 and 2 pass. -/
theorem tampered_content_fails_digest_checks_witness :
    legacySerialize { legacyCreateAttestationPayload "abc" "t" "u" "AB" "h" 2
        "kipz/url-oracle" with
        content := setCharAt "AB" 0 'X' } ≠
      legacySerialize (legacyCreateAttestationPayload "abc" "t" "u" "AB" "h"
        2 "kipz/url-oracle") ∧
    (VerifyAttestation { legacyCreateAttestationPayload "abc" "t" "u" "AB"
        "h" 2 "kipz/url-oracle" with
        content := setCharAt "AB" 0 'X' } true
      (some (legacyCreateAttestationPayload "abc" "t" "u" "AB" "h" 2
        "kipz/url-oracle").Hash) "abc" "kipz/url-oracle"
      none).payloadHashVerified = false ∧
    (VerifyAttestation { legacyCreateAttestationPayload "abc" "t" "u" "AB"
        "h" 2 "kipz/url-oracle" with
        content := setCharAt "AB" 0 'X' } true
      (some (legacyCreateAttestationPayload "abc" "t" "u" "AB" "h" 2
        "kipz/url-oracle").Hash) "abc" "kipz/url-oracle"
      none).programHashVerified = false ∧
    (VerifyAttestation { legacyCreateAttestationPayload "abc" "t" "u" "AB"
        "h" 2 "kipz/url-oracle" with
        content := setCharAt "AB" 0 'X' } true
      (some (legacyCreateAttestationPayload "abc" "t" "u" "AB" "h" 2
        "kipz/url-oracle").Hash) "abc" "kipz/url-oracle"
      none).signedMessageVerified = true ∧
    (VerifyAttestation { legacyCreateAttestationPayload "abc" "t" "u" "AB"
        "h" 2 "kipz/url-oracle" with
        content := setCharAt "AB" 0 'X' } true
      (some (legacyCreateAttestationPayload "abc" "t" "u" "AB" "h" 2
        "kipz/url-oracle").Hash) "abc" "kipz/url-oracle"
      none).pkTokenVerified = true := by
  have h := tampered_content_fails_digest_checks
    (legacyCreateAttestationPayload "abc" "t" "u" "AB" "h" 2
      "kipz/url-oracle") 0 'X' true "abc" "kipz/url-oracle" none
    (by decide) (by decide)
  exact ⟨h.1, h.2.2.1 (by decide), h.2.2.2.1 (by decide), h.2.2.2.2.1,
    h.2.2.2.2.2⟩

/-- C9 counterexample: read literally over the embedded SHA-256, the claim
that distinct payloads always have distinct digests is false: the payload
space is infinite while digests form a finite set, so by pigeonhole two
distinct payloads share a digest (no explicit pair is computable, which is
exactly why the property can only hold modulo SHA-256's collision
resistance). -/
theorem payloadHash_has_collision :
    ∃ p1 p2 : AttestationPayload, p1 ≠ p2 ∧ p1.Hash = p2.Hash := by
  obtain ⟨p1, p2, hne, heq⟩ := Finite.exists_ne_map_eq_of_infinite hashByteFun
  refine ⟨p1, p2, hne, ?_⟩
  apply List.ext_getElem
    (by simp only [AttestationPayload.Hash, sha256_length])
  intro n h1 h2
  have hl1 : p1.Hash.length = 32 := sha256_length _
  have hn32 : n < 32 := by omega
  have happ := congrFun heq ⟨n, hn32⟩
  simp only [hashByteFun, Fin.mk.injEq] at happ
  rw [List.getD_eq_getElem _ _ h1, List.getD_eq_getElem _ _ h2] at happ
  have hb1 : p1.Hash[n] < 256 := sha256_mem_lt _ _ (List.getElem_mem h1)
  have hb2 : p2.Hash[n] < 256 := sha256_mem_lt _ _ (List.getElem_mem h2)
  rwa [Nat.mod_eq_of_lt hb1, Nat.mod_eq_of_lt hb2] at happ

/-- C9 (amended): payload hashing is deterministic (it is a pure function of
the payload), distinct payloads always marshal to distinct JSON byte strings
— the digest pre-images never collide, so no field is dropped from the
serialization — and therefore distinct payloads have distinct digests unless
the two marshalled byte strings form an outright SHA-256 collision. -/
theorem payloadHash_deterministic_and_preimage_injective :
    (∀ p : AttestationPayload, p.Hash = p.Hash) ∧
    (∀ p1 p2 : AttestationPayload, p1 ≠ p2 →
      utf8Bytes (serializePayload p1) ≠ utf8Bytes (serializePayload p2)) ∧
    (∀ p1 p2 : AttestationPayload, p1 ≠ p2 →
      p1.Hash ≠ p2.Hash ∨ Sha256Collision) := by
  refine ⟨fun _ => rfl, ?_, ?_⟩
  · intro p1 p2 hne heq
    exact hne (serializePayload_inj _ _ (utf8Bytes_inj _ _ heq))
  · intro p1 p2 hne
    by_cases h : p1.Hash = p2.Hash
    · exact Or.inr ⟨utf8Bytes (serializePayload p1),
        utf8Bytes (serializePayload p2),
        fun hh => hne (serializePayload_inj _ _ (utf8Bytes_inj _ _ hh)), h⟩
    · exact Or.inl h

/-- Witness for C9's amended theorem: two concrete payloads differing only
in their URL have distinct marshalled byte strings, and their digests differ
or SHA-256 itself collides on those strings. -/
theorem payloadHash_preimage_injective_witness :
    utf8Bytes (serializePayload
      { commitSHA := "c", timestamp := "t", url := "u1", content := [],
        contentDigest := "d", contentSize := 0,
        previousAttestation := none }) ≠
      utf8Bytes (serializePayload
        { commitSHA := "c", timestamp := "t", url := "u2", content := [],
          contentDigest := "d", contentSize := 0,
          previousAttestation := none }) ∧
    (AttestationPayload.Hash
        { commitSHA := "c", timestamp := "t", url := "u1", content := [],
          contentDigest := "d", contentSize := 0,
          previousAttestation := none } ≠
        AttestationPayload.Hash
          { commitSHA := "c", timestamp := "t", url := "u2", content := [],
            contentDigest := "d", contentSize := 0,
            previousAttestation := none } ∨
      Sha256Collision) :=
  ⟨payloadHash_deterministic_and_preimage_injective.2.1 _ _ (by decide),
   payloadHash_deterministic_and_preimage_injective.2.2 _ _ (by decide)⟩

/-- C10: in every result of `VerifyAttestation`, if the signed-message
verification fails (no message is recovered, so Go leaves the nil slice),
the payload-digest check and the recomputation check also fail, because the
empty message can never equal a 32-byte SHA-256 digest. -/
theorem signedMessage_failure_fails_hash_checks
    (payload : LegacyAttestationPayload) (pkTokenOk : Bool)
    (currentCommitSHA ghRepository : String) (gitFallback : Option String) :
    (VerifyAttestation payload pkTokenOk none currentCommitSHA ghRepository
      gitFallback).signedMessageVerified = false ∧
    (VerifyAttestation payload pkTokenOk none currentCommitSHA ghRepository
      gitFallback).payloadHashVerified = false ∧
    (VerifyAttestation payload pkTokenOk none currentCommitSHA ghRepository
      gitFallback).programHashVerified = false := by
  refine ⟨rfl, ?_, ?_⟩
  · exact beq_eq_false_iff_ne.mpr (fun h => sha256_ne_nil _ h.symm)
  · exact beq_eq_false_iff_ne.mpr (fun h => sha256_ne_nil _ h.symm)

end UrlOracle
